import Mathlib

/-!
Shallow embedding of the collapsed-stacks archive generator
(`src/__main__.py`), centred on `dump_markdown_from_json_lines`
(lines 159-300): loading the JSON-Lines tables into insertion-ordered
dictionaries, the enrichment passes over posts, questions, answers,
users and post history, and the Markdown page renderer.

Python dictionaries are modelled as insertion-ordered association lists
(`dictInsert` replaces the value at an existing key in place, otherwise
appends).  Python's stable `list.sort`/`sorted` is modelled by
`List.insertionSort` with a non-strict comparison, which computes the
same stable result.  Mutation of the shared post objects is modelled by
threading a single arena (keyed by post id) through the passes, exactly
mirroring the loop order of the source.  A JSON-Lines input line is
abstracted as `PLine`: blank, structurally invalid (where `json.loads`
would raise), or a parsed row.
-/

namespace CS

/-! ### Ordered dictionaries (Python `dict`) -/

/-- Python `d[k] = v`: replace the value at the first occurrence of the key
(keeping its position, as Python dicts keep insertion order on overwrite),
or append a new binding at the end. -/
def dictInsert {α : Type} : List (Int × α) → Int → α → List (Int × α)
  | [], k, v => [(k, v)]
  | kv :: t, k, v => if kv.1 = k then (kv.1, v) :: t else kv :: dictInsert t k v

/-- Python `d.get(k)` / `d[k]` lookup: first binding with the key. -/
def dictGet {α : Type} : List (Int × α) → Int → Option α
  | [], _ => none
  | kv :: t, k => if kv.1 = k then some kv.2 else dictGet t k

/-- The keys of a dictionary, in order. -/
def dictKeys {α : Type} (m : List (Int × α)) : List Int :=
  m.map Prod.fst

/-! ### Python string helpers -/

/-- Does `pat` occur at the start of `s`? (used for substring search). -/
def startsWith : List Char → List Char → Bool
  | _, [] => true
  | [], _ :: _ => false
  | c :: s, p :: ps => c = p && startsWith s ps

/-- Python's `pat in s` substring containment on strings. -/
def containsSub : List Char → List Char → Bool
  | [], pat => pat.isEmpty
  | c :: t, pat => startsWith (c :: t) pat || containsSub t pat

/-- Python `s.replace('\r\n', '\n')`: left-to-right, non-overlapping. -/
def replaceCRLF : List Char → List Char
  | [] => []
  | '\r' :: '\n' :: rest => '\n' :: replaceCRLF rest
  | c :: rest => c :: replaceCRLF rest

/-- Python `s.replace('\r', '\n')`. -/
def replaceCR : List Char → List Char
  | [] => []
  | '\r' :: rest => '\n' :: replaceCR rest
  | c :: rest => c :: replaceCR rest

/-- Line-ending normalisation applied to history revision text
(line 253 of the source): `.replace('\r\n', '\n').replace('\r', '\n')`. -/
def normBody (s : String) : String :=
  ⟨replaceCR (replaceCRLF s.data)⟩

/-- Python `str.lower()` on the ASCII range: `A`-`Z` map to `a`-`z` and
every other ASCII character is fixed, exactly CPython's behaviour there.
Outside ASCII, CPython applies the full Unicode case table, which can map
letters such as U+212A (KELVIN SIGN, which lowers to `k`) *into* `[a-z]`;
this embedding does not carry that table, so every statement about which
inputs reach the `or`-fallback of lines 216/238 is scoped to ASCII
strings (`isAsciiChar`), where this definition coincides with the
program. -/
def pyLower (c : Char) : Char :=
  if 'A' ≤ c ∧ c ≤ 'Z' then Char.ofNat (c.toNat + 32) else c

/-- Membership in the regex character class `[a-z0-9]` of line 216/238. -/
def isAlnumLower (c : Char) : Bool :=
  ('a' ≤ c && c ≤ 'z') || ('0' ≤ c && c ≤ '9')

/-- Worker for `re.sub('[^a-z0-9]+', '-', s)`: each maximal run of
characters outside `[a-z0-9]` becomes a single hyphen.  The flag remembers
whether we are inside a run that has already produced its hyphen. -/
def collapseAux : Bool → List Char → List Char
  | _, [] => []
  | inRun, c :: rest =>
    if isAlnumLower c then c :: collapseAux false rest
    else if inRun then collapseAux true rest
    else '-' :: collapseAux true rest

/-- `re.sub('[^a-z0-9]+', '-', s)` from lines 216 and 238. -/
def collapse (l : List Char) : List Char :=
  collapseAux false l

/-- Remove leading hyphens (one side of Python `str.strip('-')`). -/
def ltrim (l : List Char) : List Char :=
  l.dropWhile (fun c => c = '-')

/-- Python `s.strip('-')`: remove hyphens from both ends. -/
def stripDashes (l : List Char) : List Char :=
  ltrim ((ltrim l.reverse).reverse)

/-- The slug computation shared by lines 216 and 238:
`sub('[^a-z0-9]+', '-', s[:80].lower()).strip('-')` (before the
`or`-fallback). -/
def slugify (s : String) : String :=
  ⟨stripDashes (collapse ((s.data.take 80).map pyLower))⟩

/-- Line 216: `question.Slug = slugify(Title) or f'post{Id}'`
(Python `or`: the empty string is falsy). -/
def questionSlug (title : String) (id : Int) : String :=
  if slugify title = "" then "post" ++ toString id else slugify title

/-- Line 238: `user.Slug = slugify(DisplayName) or f'user{Id}'`. -/
def userSlug (displayName : String) (id : Int) : String :=
  if slugify displayName = "" then "user" ++ toString id else slugify displayName

/-! ### Records for the loaded table rows -/

/-- A row of the `Users` table.  Optional attributes of the Python
`SimpleNamespace` bags are `Option` fields. -/
structure User where
  Id : Int
  DisplayName : String := ""
  AccountId : Option Int := none
deriving DecidableEq, Repr, Inhabited

/-- A row of the `Posts` (or `PostsWithDeleted`) table. -/
structure Post where
  Id : Int
  PostTypeId : Int := 1
  Body : String := ""
  Score : Int := 0
  Title : String := ""
  CreationDate : String := ""
  Tags : List String := []
  ParentId : Int := 0
  AcceptedAnswerId : Option Int := none
  OwnerUserId : Option Int := none
  LastEditDate : Option String := none
  DeletionDate : Option String := none
deriving DecidableEq, Repr, Inhabited

/-- A row of the `Comments` table (loaded but not used by the renderer). -/
structure Comment where
  Id : Int
  PostId : Int := 0
  Text : String := ""
deriving DecidableEq, Repr, Inhabited

/-- A row of the `PostHistory` table. -/
structure Revision where
  PostId : Int
  PostHistoryTypeId : Int
  Text : String := ""
deriving DecidableEq, Repr, Inhabited

/-- A line of a JSON-Lines file as seen by the loader: blank (skipped by
`if line.strip()`), structurally invalid (where `json.loads` raises), or a
parsed row. -/
inductive PLine (α : Type) where
  | blank : PLine α
  | malformed : PLine α
  | row : α → PLine α
deriving DecidableEq, Repr

/-- A post object after enrichment: the loaded row plus the attributes the
passes add in place.  `Answers` and `AcceptedAnswer` hold the loaded rows of
the referenced answers (the aliasing of Python objects is resolved by id
lookup in the arena). -/
structure EPost where
  post : Post
  Owner : User
  Edited : Bool
  BodySource : String
  Slug : String := ""
  Path : String := ""
  AcceptedAnswer : Option Post := none
  Answers : List Post := []
  IsAccepted : Bool := false
  Question : Option Post := none
deriving DecidableEq, Repr, Inhabited

/-- A user object after enrichment (lines 237-242). -/
structure EUser where
  user : User
  Slug : String
  Url : String
deriving DecidableEq, Repr, Inhabited

/-- The mutable state of `dump_markdown_from_json_lines` between the
enrichment loops: the post arena (the `Posts` dict, whose objects are shared
with `Questions` and `Answers`), the `Users` dict accumulated from owners,
the `Tags` index (question ids per tag) and the error log. -/
structure St where
  arena : List (Int × EPost)
  users : List (Int × User)
  tags : List (String × List Int)
  log : List String
deriving DecidableEq, Repr, Inhabited

/-- The `Questions` sub-dictionary (line 197): entries whose post has
`PostTypeId = 1`. -/
def questionsDict (ar : List (Int × EPost)) : List (Int × EPost) :=
  ar.filter (fun kv => kv.2.post.PostTypeId = 1)

/-- The `Answers` sub-dictionary (line 199): entries whose post has
`PostTypeId = 2`. -/
def answersDict (ar : List (Int × EPost)) : List (Int × EPost) :=
  ar.filter (fun kv => kv.2.post.PostTypeId = 2)

/-- The values of `Questions` in iteration order. -/
def questionsList (ar : List (Int × EPost)) : List EPost :=
  (questionsDict ar).map Prod.snd

/-- The values of `Answers` in iteration order. -/
def answersList (ar : List (Int × EPost)) : List EPost :=
  (answersDict ar).map Prod.snd

/-! ### The loader (`load_table`, lines 164-186) -/

/-- Worker for `load_table`: blank lines are skipped by the
`if line.strip()` filter, a structurally invalid line makes `json.loads`
raise (aborting the load), and each parsed row is inserted keyed by its
`Id` attribute. -/
def load_tableAux {α : Type} (getId : α → Int) :
    List (PLine α) → List (Int × α) → Except String (List (Int × α))
  | [], m => .ok m
  | .blank :: rest, m => load_tableAux getId rest m
  | .malformed :: _, _ => .error "json.decoder.JSONDecodeError"
  | .row v :: rest, m => load_tableAux getId rest (dictInsert m (getId v) v)

/-- `load_table` (lines 164-174): `{row.Id: row for row in ...}`. -/
def load_table {α : Type} (getId : α → Int) (lines : List (PLine α)) :
    Except String (List (Int × α)) :=
  load_tableAux getId lines []

/-- Lines 177-185: `try: Posts = load_table('Posts') except:` fall back to
`PostsWithDeleted` filtered to rows without a `DeletionDate`.  The bare
`except` catches any loading fault, not just a missing file. -/
def loadPosts (postsLines pwdLines : List (PLine Post)) :
    Except String (List (Int × Post)) :=
  match load_table Post.Id postsLines with
  | .ok m => .ok m
  | .error _ =>
    match load_table Post.Id pwdLines with
    | .error e => .error e
    | .ok m => .ok (m.filter (fun kv => kv.2.DeletionDate.isNone))

/-! ### First enrichment loop over posts (lines 194-211) -/

/-- One iteration of the loop at line 204: resolve `Owner` (a missing
`OwnerUserId` falls back to the Community user; a dangling one raises
`KeyError` on `AllUsers[...]`), record the referenced user in `Users`,
compute `Edited`, and seed `BodySource = Body`. -/
def postsStep (allUsers : List (Int × User)) (community : User) (acc : St)
    (kp : Int × Post) : Except String St :=
  match kp.2.OwnerUserId with
  | some uid =>
    match dictGet allUsers uid with
    | none => .error ("KeyError: " ++ toString uid)
    | some u => .ok { acc with
        arena := acc.arena ++
          [(kp.1, { post := kp.2, Owner := u, Edited := kp.2.LastEditDate.isSome,
                    BodySource := kp.2.Body })],
        users := dictInsert acc.users uid u }
  | none => .ok { acc with
      arena := acc.arena ++
        [(kp.1, { post := kp.2, Owner := community, Edited := kp.2.LastEditDate.isSome,
                  BodySource := kp.2.Body })] }

def postsPassAux (allUsers : List (Int × User)) (community : User) :
    List (Int × Post) → St → Except String St
  | [], acc => .ok acc
  | kp :: rest, acc =>
    match postsStep allUsers community acc kp with
    | .error e => .error e
    | .ok acc' => postsPassAux allUsers community rest acc'

/-- Lines 194-211: `Users = {-1: AllUsers[-1]}` (a `KeyError` if the
Community user is missing) followed by the first loop over `Posts.values()`. -/
def postsPass (posts : List (Int × Post)) (allUsers : List (Int × User)) :
    Except String St :=
  match dictGet allUsers (-1) with
  | none => .error "KeyError: -1"
  | some community =>
    postsPassAux allUsers community posts
      { arena := [], users := [(-1, community)], tags := [], log := [] }

/-! ### Question loop (lines 213-227) -/

/-- The updated question entry produced by one iteration of the loop at
line 213: empty `Answers`, the slug/path of line 216-217, and
`AcceptedAnswer = Answers.get(AcceptedAnswerId)` (or `None` when the
attribute is absent). -/
def qUpdate (ans : List (Int × EPost)) (qe : EPost) : EPost :=
  { qe with
    Answers := [],
    Slug := questionSlug qe.post.Title qe.post.Id,
    Path := "questions/" ++ toString qe.post.Id ++ "/" ++
      questionSlug qe.post.Title qe.post.Id,
    AcceptedAnswer :=
      match qe.post.AcceptedAnswerId with
      | some aid => (dictGet ans aid).map (fun e => e.post)
      | none => none }

/-- Line 221-222: `logger.error` fires exactly when `Answers.get` returned
`None` (the namespace objects themselves are always truthy). -/
def qLog (ans : List (Int × EPost)) (qe : EPost) : List String :=
  match qe.post.AcceptedAnswerId with
  | some aid =>
    match dictGet ans aid with
    | none => ["Failed to find accepted answer with ID " ++ toString aid ++ "."]
    | some _ => []
  | none => []

/-- `Tags[tag].append(question)` on a `defaultdict(list)` (lines 202, 226-227);
questions are recorded by id. -/
def tagsAdd : List (String × List Int) → String → Int → List (String × List Int)
  | [], tag, qid => [(tag, [qid])]
  | kv :: t, tag, qid =>
    if kv.1 = tag then (kv.1, kv.2 ++ [qid]) :: t else kv :: tagsAdd t tag qid

def tagsAddAll (tags : List (String × List Int)) (tagNames : List String)
    (qid : Int) : List (String × List Int) :=
  tagNames.foldl (fun ts tag => tagsAdd ts tag qid) tags

def questionsStep (acc : St) (qe : EPost) : St :=
  { acc with
    arena := dictInsert acc.arena qe.post.Id (qUpdate (answersDict acc.arena) qe),
    log := acc.log ++ qLog (answersDict acc.arena) qe,
    tags := tagsAddAll acc.tags qe.post.Tags qe.post.Id }

def questionsPassAux : List EPost → St → St
  | [], acc => acc
  | qe :: rest, acc => questionsPassAux rest (questionsStep acc qe)

/-- Lines 213-227: the loop over `Questions.values()`. -/
def questionsPass (st : St) : St :=
  questionsPassAux (questionsList st.arena) st

/-! ### Answer loop (lines 229-235) -/

/-- The comparison underlying `sort(key=lambda a: -a.Score)`: Python's
stable ascending sort on the key `-Score`, i.e. descending `Score` with
ties kept in list order. -/
def scoreGe (a b : Post) : Prop := b.Score ≤ a.Score

instance : DecidableRel scoreGe := fun _ _ => Int.decLe _ _

instance : IsTotal Post scoreGe :=
  ⟨fun a b => (Int.le_total a.Score b.Score).symm⟩

instance : IsTrans Post scoreGe :=
  ⟨fun _ _ _ hab hbc => le_trans hbc hab⟩

/-- Line 232: `answer == question.AcceptedAnswer`.  `SimpleNamespace`
equality compares the attribute bags; on the loaded rows this is record
equality of the answer row with the resolved accepted row (comparison with
`None` is `False`). -/
def accOf (qe ae : EPost) : Bool :=
  match qe.AcceptedAnswer with
  | some acc => decide (ae.post = acc)
  | none => false

/-- The updated answer entry written by one iteration of the loop at
line 229 (`Question` back-reference, `IsAccepted`, anchor `Path`). -/
def answerUpd (qe ae : EPost) : EPost :=
  { ae with
    Question := some qe.post,
    IsAccepted := accOf qe ae,
    Path := "questions/" ++ toString qe.post.Id ++ "/" ++ qe.Slug ++
      "#answer-" ++ toString ae.post.Id }

/-- One iteration of the loop at line 229: `Questions[answer.ParentId]`
raises `KeyError` when the parent is unknown; otherwise update the answer
object, append the answer row to the parent's `Answers`, and re-sort that
list with the stable sort on descending score. -/
def answersStep (ar : List (Int × EPost)) (ae : EPost) :
    Except String (List (Int × EPost)) :=
  match dictGet (questionsDict ar) ae.post.ParentId with
  | none => .error ("KeyError: " ++ toString ae.post.ParentId)
  | some qe =>
    .ok (dictInsert (dictInsert ar ae.post.Id (answerUpd qe ae)) qe.post.Id
      { qe with Answers := List.insertionSort scoreGe (qe.Answers ++ [ae.post]) })

def answersPassAux : List EPost → List (Int × EPost) →
    Except String (List (Int × EPost))
  | [], ar => .ok ar
  | ae :: rest, ar =>
    match answersStep ar ae with
    | .error e => .error e
    | .ok ar' => answersPassAux rest ar'

/-- Lines 229-235: the loop over `Answers.values()`. -/
def answersPass (st : St) : Except String St :=
  match answersPassAux (answersList st.arena) st.arena with
  | .error e => .error e
  | .ok ar => .ok { st with arena := ar }

/-! ### User loop (lines 237-242) -/

def userUpdate (kv : Int × User) : Int × EUser :=
  (kv.1,
    { user := kv.2,
      Slug := userSlug kv.2.DisplayName kv.2.Id,
      Url :=
        match kv.2.AccountId with
        | some acc => "https://stackexchange.com/users/" ++ toString acc ++ "/" ++
            userSlug kv.2.DisplayName kv.2.Id
        | none => "https://stackexchange.com/users/-1/" ++ toString kv.2.Id ++ "-" ++
            userSlug kv.2.DisplayName kv.2.Id })

/-- Lines 237-242: the loop over `Users.values()`. -/
def usersPass (users : List (Int × User)) : List (Int × EUser) :=
  users.map userUpdate

/-! ### Post-history streaming (lines 246-253) -/

/-- `revision.PostHistoryTypeId in (2, 5, 8)` (line 250). -/
def qualifies (r : Revision) : Bool :=
  r.PostHistoryTypeId = 2 || r.PostHistoryTypeId = 5 || r.PostHistoryTypeId = 8

/-- One streamed `PostHistory` line: blanks are skipped, a structurally
invalid line raises in `json.loads`, a qualifying revision overwrites
`Posts[revision.PostId].BodySource` (raising `KeyError` when the post id is
not in `Posts`). -/
def historyStep (ar : List (Int × EPost)) (l : PLine Revision) :
    Except String (List (Int × EPost)) :=
  match l with
  | .blank => .ok ar
  | .malformed => .error "json.decoder.JSONDecodeError"
  | .row rev =>
    if qualifies rev then
      match dictGet ar rev.PostId with
      | none => .error ("KeyError: " ++ toString rev.PostId)
      | some e => .ok (dictInsert ar rev.PostId { e with BodySource := normBody rev.Text })
    else .ok ar

def historyPassAux : List (PLine Revision) → List (Int × EPost) →
    Except String (List (Int × EPost))
  | [], ar => .ok ar
  | l :: rest, ar =>
    match historyStep ar l with
    | .error e => .error e
    | .ok ar' => historyPassAux rest ar'

/-- Lines 246-253: stream `PostHistory.jsonl` over the post arena. -/
def historyPass (ar : List (Int × EPost)) (lines : List (PLine Revision)) :
    Except String (List (Int × EPost)) :=
  historyPassAux lines ar

/-! ### Renderer (lines 255-300) -/

/-- The comparison underlying `sorted(..., key=lambda a: (-a.Score, a.Id))`
(lines 277 and 299): descending score, ties by ascending id. -/
def rlex (a b : Post) : Prop :=
  b.Score < a.Score ∨ (a.Score = b.Score ∧ a.Id ≤ b.Id)

instance : DecidableRel rlex := fun a b => by
  unfold rlex; infer_instance

instance : IsTotal Post rlex := by
  constructor
  intro a b
  unfold rlex
  omega

instance : IsTrans Post rlex := by
  constructor
  intro a b c hab hbc
  unfold rlex at *
  omega

/-- The relation `rlex` lifted to enriched posts (used for the index page). -/
def rlexE (a b : EPost) : Prop := rlex a.post b.post

instance : DecidableRel rlexE := fun a b => by
  unfold rlexE; infer_instance

/-- Lines 285-287: emit `BodySource`, unless it contains both the substring
`][` and the substring ` [`, in which case emit the rendered HTML `Body`. -/
def chooseBody (e : EPost) : String :=
  if containsSub e.BodySource.data [']', '['] &&
      containsSub e.BodySource.data [' ', '['] then e.post.Body
  else e.BodySource

/-- The data of one rendered answer section (lines 279-289). -/
structure Block where
  Id : Int
  Score : Int
  body : String
deriving DecidableEq, Repr, Inhabited

/-- Line 277: iterate `sorted(question.Answers, key=lambda a: (-a.Score, a.Id))`;
each answer object is its arena entry (Python aliasing is id lookup). -/
def renderAnswerBlocks (ar : List (Int × EPost)) (qe : EPost) : List Block :=
  (List.insertionSort rlex qe.Answers).filterMap (fun p =>
    (dictGet ar p.Id).map (fun e =>
      { Id := p.Id, Score := p.Score, body := chooseBody e }))

/-- The data of one question page (lines 264-293). -/
structure Page where
  path : String
  title : String
  body : String
  blocks : List Block
  noAnswers : Bool
deriving DecidableEq, Repr, Inhabited

def renderPage (ar : List (Int × EPost)) (qe : EPost) : Page :=
  { path := qe.Path ++ ".md",
    title := qe.post.Title,
    body := qe.BodySource,
    blocks := if qe.Answers.isEmpty then [] else renderAnswerBlocks ar qe,
    noAnswers := qe.Answers.isEmpty }

/-- Everything the renderer writes: one page per question, the enriched
users, the question index (line 297-300, sorted by `(-Score, Id)`), and the
accumulated error log. -/
structure Output where
  pages : List Page
  eusers : List (Int × EUser)
  index : List (Int × String)
  log : List String
deriving DecidableEq, Repr, Inhabited

def render (st : St) : Output :=
  { pages := (questionsList st.arena).map (renderPage st.arena),
    eusers := usersPass st.users,
    index := (List.insertionSort rlexE (questionsList st.arena)).map
      (fun e => (e.post.Id, e.post.Title)),
    log := st.log }

/-! ### The composed pipeline (`dump_markdown_from_json_lines`) -/

/-- The five JSON-Lines inputs of one run. -/
structure Input where
  usersLines : List (PLine User)
  postsLines : List (PLine Post)
  pwdLines : List (PLine Post)
  commentsLines : List (PLine Comment)
  historyLines : List (PLine Revision)
deriving DecidableEq, Repr, Inhabited

/-- Loads (lines 176-186) followed by the first posts loop. -/
def stage1 (i : Input) : Except String St :=
  match load_table User.Id i.usersLines with
  | .error e => .error e
  | .ok allUsers =>
    match loadPosts i.postsLines i.pwdLines with
    | .error e => .error e
    | .ok posts =>
      match load_table Comment.Id i.commentsLines with
      | .error e => .error e
      | .ok _ => postsPass posts allUsers

/-- Through the question loop (line 227). -/
def stage2 (i : Input) : Except String St :=
  match stage1 i with
  | .error e => .error e
  | .ok st1 => .ok (questionsPass st1)

/-- Through the answer loop (line 235). -/
def stage3 (i : Input) : Except String St :=
  match stage2 i with
  | .error e => .error e
  | .ok st2 => answersPass st2

/-- Through post-history streaming (line 253). -/
def stage5 (i : Input) : Except String St :=
  match stage3 i with
  | .error e => .error e
  | .ok st3 =>
    match historyPass st3.arena i.historyLines with
    | .error e => .error e
    | .ok ar => .ok { st3 with arena := ar }

/-- The whole of `dump_markdown_from_json_lines`: a faulting stage aborts
the run before any page is produced. -/
def pipeline (i : Input) : Except String Output :=
  match stage5 i with
  | .error e => .error e
  | .ok st5 => .ok (render st5)

/-! ### Dictionary lemmas -/

variable {α : Type}

theorem dictGet_insert_self (m : List (Int × α)) (k : Int) (v : α) :
    dictGet (dictInsert m k v) k = some v := by
  induction m with
  | nil => simp [dictInsert, dictGet]
  | cons kv t ih =>
    by_cases h : kv.1 = k
    · simp [dictInsert, h, dictGet]
    · simp [dictInsert, h, dictGet, ih]

theorem dictGet_insert_ne (m : List (Int × α)) {k k' : Int} (v : α)
    (h : k' ≠ k) : dictGet (dictInsert m k v) k' = dictGet m k' := by
  induction m with
  | nil =>
    have hne : k ≠ k' := fun he => h he.symm
    simp [dictInsert, dictGet, hne]
  | cons kv t ih =>
    by_cases hk : kv.1 = k
    · have hkk : ¬ k = k' := fun he => h he.symm
      simp [dictInsert, hk, dictGet, hkk]
    · by_cases hk' : kv.1 = k'
      · simp [dictInsert, dictGet, hk', h]
      · simp [dictInsert, hk, dictGet, hk', ih]

theorem dictGet_mem {m : List (Int × α)} {k : Int} {v : α}
    (h : dictGet m k = some v) : (k, v) ∈ m := by
  induction m with
  | nil => simp [dictGet] at h
  | cons kv t ih =>
    by_cases hk : kv.1 = k
    · simp [dictGet, hk] at h
      subst hk h
      simp
    · simp [dictGet, hk] at h
      exact List.mem_cons_of_mem _ (ih h)

theorem dictGet_eq_none {m : List (Int × α)} {k : Int} :
    dictGet m k = none ↔ k ∉ dictKeys m := by
  induction m with
  | nil => simp [dictGet, dictKeys]
  | cons kv t ih =>
    by_cases hk : kv.1 = k
    · subst hk
      simp [dictGet, dictKeys]
    · have hne : ¬ k = kv.1 := fun he => hk he.symm
      simp only [dictGet, if_neg hk, ih, dictKeys, List.map_cons,
        List.mem_cons, not_or]
      simp [hne, dictKeys]

theorem mem_dictGet {m : List (Int × α)} {k : Int} {v : α}
    (h : (k, v) ∈ m) (hnd : (dictKeys m).Nodup) : dictGet m k = some v := by
  induction m with
  | nil => simp at h
  | cons kv t ih =>
    rw [dictKeys, List.map_cons, List.nodup_cons] at hnd
    rcases List.mem_cons.mp h with h1 | h1
    · simp [dictGet, ← h1]
    · have hkt : k ∈ t.map Prod.fst := List.mem_map_of_mem Prod.fst h1
      have hne : kv.1 ≠ k := fun he => hnd.1 (he ▸ hkt)
      simp [dictGet, hne]
      exact ih h1 hnd.2

theorem dictKeys_insert_of_mem {m : List (Int × α)} {k : Int} (v : α)
    (h : k ∈ dictKeys m) : dictKeys (dictInsert m k v) = dictKeys m := by
  induction m with
  | nil => simp [dictKeys] at h
  | cons kv t ih =>
    by_cases hk : kv.1 = k
    · simp [dictInsert, hk, dictKeys]
    · have hkt : k ∈ dictKeys t := by
        rw [dictKeys, List.map_cons, List.mem_cons] at h
        rcases h with h1 | h1
        · exact absurd h1.symm hk
        · exact h1
      have ih' := ih hkt
      rw [dictKeys] at ih'
      simp only [dictInsert, if_neg hk, dictKeys, List.map_cons, ih']

theorem mem_of_mem_dictInsert {m : List (Int × α)} {k : Int} {v : α}
    {kv' : Int × α} (h : kv' ∈ dictInsert m k v) : kv' ∈ m ∨ kv' = (k, v) := by
  induction m with
  | nil => simp [dictInsert] at h; simp [h]
  | cons kv t ih =>
    by_cases hk : kv.1 = k
    · simp [dictInsert, hk] at h
      rcases h with h | h
      · right; simp [h, ← hk]
      · left; exact List.mem_cons_of_mem _ h
    · simp [dictInsert, hk] at h
      rcases h with h | h
      · left; simp [h]
      · rcases ih h with h1 | h1
        · left; exact List.mem_cons_of_mem _ h1
        · right; exact h1

theorem dictKeys_filter_nodup {m : List (Int × α)} (p : Int × α → Bool)
    (hnd : (dictKeys m).Nodup) : (dictKeys (m.filter p)).Nodup := by
  have hsub : List.Sublist (dictKeys (m.filter p)) (dictKeys m) :=
    (List.filter_sublist m).map Prod.fst
  exact List.Nodup.sublist hsub hnd

theorem dictGet_filter {m : List (Int × α)} (p : Int × α → Bool) (k : Int)
    (hnd : (dictKeys m).Nodup) :
    dictGet (m.filter p) k =
      (dictGet m k).bind (fun v => if p (k, v) then some v else none) := by
  induction m with
  | nil => simp [dictGet]
  | cons kv t ih =>
    rw [dictKeys, List.map_cons, List.nodup_cons] at hnd
    by_cases hk : kv.1 = k
    · by_cases hp : p kv
      · rw [List.filter_cons_of_pos hp]
        subst hk
        simp [dictGet, hp]
      · rw [List.filter_cons_of_neg hp]
        subst hk
        have hnone : dictGet t kv.1 = none :=
          dictGet_eq_none.mpr hnd.1
        simp [dictGet, ih hnd.2, hnone, hp]
    · by_cases hp : p kv
      · rw [List.filter_cons_of_pos hp]
        simp [dictGet, hk, ih hnd.2]
      · rw [List.filter_cons_of_neg hp]
        simp [dictGet, hk, ih hnd.2]

/-! ### Stability of the modelled Python sort

Python's `list.sort`/`sorted` is stable; `List.insertionSort` with a
non-strict comparison computes the same result.  The lemmas below capture
the stability we need: sorting does not reorder the elements of one
equivalence class of the comparison. -/

theorem filter_orderedInsert {β : Type} (r : β → β → Prop) [DecidableRel r]
    (p : β → Bool) (a : β) (l : List β) (hpa : p a = true)
    (hp : ∀ b, p b = true → r a b) :
    (List.orderedInsert r a l).filter p = a :: l.filter p := by
  rw [List.orderedInsert_eq_take_drop, List.filter_append,
    List.filter_cons_of_pos hpa]
  have htake : (l.takeWhile fun b => ¬ r a b).filter p = [] := by
    rw [List.filter_eq_nil_iff]
    intro b hb
    have hnr : ¬ r a b := by
      have := List.mem_takeWhile_imp hb
      simpa using this
    intro hpb
    exact hnr (hp b hpb)
  rw [htake, List.nil_append]
  have hsplit := List.takeWhile_append_dropWhile (fun b => decide (¬ r a b)) l
  conv_rhs => rw [← hsplit]
  rw [List.filter_append, htake, List.nil_append]

theorem filter_orderedInsert_neg {β : Type} (r : β → β → Prop) [DecidableRel r]
    (p : β → Bool) (a : β) (l : List β) (hpa : p a = false) :
    (List.orderedInsert r a l).filter p = l.filter p := by
  rw [List.orderedInsert_eq_take_drop, List.filter_append,
    List.filter_cons_of_neg (by simp [hpa])]
  have hsplit := List.takeWhile_append_dropWhile (fun b => decide (¬ r a b)) l
  conv_rhs => rw [← hsplit]
  rw [List.filter_append]

/-- Stability: sorting does not change the subsequence of elements in one
class of the comparison (`p` selects a class on which `r` always holds). -/
theorem filter_insertionSort {β : Type} (r : β → β → Prop) [DecidableRel r]
    (p : β → Bool) (hties : ∀ a b, p a = true → p b = true → r a b) :
    ∀ l : List β, (List.insertionSort r l).filter p = l.filter p := by
  intro l
  induction l with
  | nil => rfl
  | cons a l ih =>
    rw [List.insertionSort]
    by_cases hpa : p a = true
    · rw [filter_orderedInsert r p a _ hpa (fun b hb => hties a b hpa hb), ih,
        List.filter_cons_of_pos hpa]
    · have hpa' : p a = false := by
        cases h : p a
        · rfl
        · exact absurd h hpa
      rw [filter_orderedInsert_neg r p a _ hpa', ih,
        List.filter_cons_of_neg (by simp [hpa'])]

theorem dictKeys_insert_of_not_mem {m : List (Int × α)} {k : Int} (v : α)
    (h : k ∉ dictKeys m) : dictKeys (dictInsert m k v) = dictKeys m ++ [k] := by
  induction m with
  | nil => simp [dictInsert, dictKeys]
  | cons kv t ih =>
    rw [dictKeys, List.map_cons, List.mem_cons, not_or] at h
    have hk : ¬ kv.1 = k := fun he => h.1 he.symm
    have ih' := ih h.2
    rw [dictKeys] at ih'
    simp only [dictInsert, if_neg hk, dictKeys, List.map_cons, ih',
      List.cons_append]

/-! ### Wellformedness of the loaded dictionaries -/

theorem load_tableAux_wf {α : Type} (getId : α → Int) :
    ∀ (lines : List (PLine α)) (m m' : List (Int × α)),
      load_tableAux getId lines m = .ok m' →
      (dictKeys m).Nodup → (∀ kv ∈ m, getId kv.2 = kv.1) →
      (dictKeys m').Nodup ∧ (∀ kv ∈ m', getId kv.2 = kv.1) := by
  intro lines
  induction lines with
  | nil =>
    intro m m' h hnd hid
    simp [load_tableAux] at h
    exact h ▸ ⟨hnd, hid⟩
  | cons l rest ih =>
    intro m m' h hnd hid
    cases l with
    | blank => exact ih m m' h hnd hid
    | malformed => simp [load_tableAux] at h
    | row v =>
      rw [load_tableAux] at h
      refine ih _ m' h ?_ ?_
      · by_cases hm : getId v ∈ dictKeys m
        · rw [dictKeys_insert_of_mem v hm]
          exact hnd
        · rw [dictKeys_insert_of_not_mem v hm]
          refine List.Nodup.append hnd (List.nodup_singleton _) ?_
          intro a ha hb
          rw [List.mem_singleton] at hb
          exact hm (hb ▸ ha)
      · intro kv hkv
        rcases mem_of_mem_dictInsert hkv with h1 | h1
        · exact hid kv h1
        · rw [h1]

theorem load_table_wf {α : Type} (getId : α → Int) (lines : List (PLine α))
    (m' : List (Int × α)) (h : load_table getId lines = .ok m') :
    (dictKeys m').Nodup ∧ (∀ kv ∈ m', getId kv.2 = kv.1) := by
  refine load_tableAux_wf getId lines [] m' h ?_ ?_ <;> simp [dictKeys]

theorem loadPosts_wf (postsLines pwdLines : List (PLine Post))
    (m' : List (Int × Post)) (h : loadPosts postsLines pwdLines = .ok m') :
    (dictKeys m').Nodup ∧ (∀ kv ∈ m', kv.2.Id = kv.1) := by
  rw [loadPosts] at h
  cases h1 : load_table Post.Id postsLines with
  | ok m =>
    rw [h1] at h
    cases h
    exact load_table_wf Post.Id postsLines m' h1
  | error e =>
    rw [h1] at h
    cases h2 : load_table Post.Id pwdLines with
    | error e2 => rw [h2] at h; cases h
    | ok m =>
      rw [h2] at h
      cases h
      obtain ⟨hnd, hid⟩ := load_table_wf Post.Id pwdLines m h2
      constructor
      · exact dictKeys_filter_nodup _ hnd
      · intro kv hkv
        exact hid kv (List.mem_of_mem_filter hkv)

/-! ### Shape of the first enrichment pass -/

theorem postsPassAux_spec (au : List (Int × User)) (c : User) :
    ∀ (l : List (Int × Post)) (acc st : St),
      postsPassAux au c l acc = .ok st →
      st.arena.map (fun kv => (kv.1, kv.2.post)) =
        acc.arena.map (fun kv => (kv.1, kv.2.post)) ++ l ∧
      st.log = acc.log ∧ st.tags = acc.tags ∧
      (∀ kv ∈ st.arena, kv ∈ acc.arena ∨ kv.2.BodySource = kv.2.post.Body) := by
  intro l
  induction l with
  | nil =>
    intro acc st h
    simp [postsPassAux] at h
    subst h
    exact ⟨by simp, rfl, rfl, fun kv hkv => Or.inl hkv⟩
  | cons kp rest ih =>
    intro acc st h
    rw [postsPassAux] at h
    cases hstep : postsStep au c acc kp with
    | error e => rw [hstep] at h; cases h
    | ok acc' =>
      rw [hstep] at h
      obtain ⟨hmap, hlog, htags, hbody⟩ := ih acc' st h
      have hstep' : acc'.arena.map (fun kv => (kv.1, kv.2.post)) =
          acc.arena.map (fun kv => (kv.1, kv.2.post)) ++ [(kp.1, kp.2)] ∧
          acc'.log = acc.log ∧ acc'.tags = acc.tags ∧
          (∀ kv ∈ acc'.arena, kv ∈ acc.arena ∨
            kv.2.BodySource = kv.2.post.Body) := by
        rw [postsStep] at hstep
        cases ho : kp.2.OwnerUserId with
        | some uid =>
          simp only [ho] at hstep
          cases hu : dictGet au uid with
          | none => simp only [hu] at hstep; cases hstep
          | some u =>
            simp only [hu] at hstep
            cases hstep
            refine ⟨by simp, rfl, rfl, ?_⟩
            intro kv hkv
            simp at hkv
            rcases hkv with h1 | h1
            · exact Or.inl h1
            · right; rw [h1]
        | none =>
          simp only [ho] at hstep
          cases hstep
          refine ⟨by simp, rfl, rfl, ?_⟩
          intro kv hkv
          simp at hkv
          rcases hkv with h1 | h1
          · exact Or.inl h1
          · right; rw [h1]
      refine ⟨?_, hlog.trans hstep'.2.1, htags.trans hstep'.2.2.1, ?_⟩
      · rw [hmap, hstep'.1]
        simp
      · intro kv hkv
        rcases hbody kv hkv with h1 | h1
        · rcases hstep'.2.2.2 kv h1 with h2 | h2
          · exact Or.inl h2
          · exact Or.inr h2
        · exact Or.inr h1

theorem dictGet_some_mem_keys {m : List (Int × α)} {k : Int} {v : α}
    (h : dictGet m k = some v) : k ∈ dictKeys m :=
  List.mem_map_of_mem Prod.fst (dictGet_mem h)

/-- Replacing a value by one that the filter equally rejects leaves a
filtered dictionary unchanged. -/
theorem filter_dictInsert_irrelevant {m : List (Int × α)} {k : Int} {w v : α}
    (p : Int × α → Bool) (hw : dictGet m k = some w)
    (hpw : p (k, w) = false) (hpv : p (k, v) = false) :
    (dictInsert m k v).filter p = m.filter p := by
  induction m with
  | nil => simp [dictGet] at hw
  | cons kv t ih =>
    by_cases hk : kv.1 = k
    · simp only [dictGet, if_pos hk] at hw
      have hw' : kv.2 = w := Option.some.inj hw
      have hkv : kv = (k, w) := by
        cases kv; simp at hk hw' ⊢; exact ⟨hk, hw'⟩
      simp only [dictInsert, if_pos hk]
      rw [List.filter_cons_of_neg, List.filter_cons_of_neg]
      · rw [hkv]; simp [hpw]
      · rw [hk]; simp [hpv]
    · simp only [dictGet, if_neg hk] at hw
      simp only [dictInsert, if_neg hk]
      by_cases hp : p kv
      · rw [List.filter_cons_of_pos hp, List.filter_cons_of_pos hp, ih hw]
      · rw [List.filter_cons_of_neg hp, List.filter_cons_of_neg hp, ih hw]

theorem stage1_wf (i : Input) (st1 : St) (h : stage1 i = .ok st1) :
    (dictKeys st1.arena).Nodup ∧ (∀ kv ∈ st1.arena, kv.2.post.Id = kv.1) ∧
    (∀ kv ∈ st1.arena, kv.2.BodySource = kv.2.post.Body) := by
  rw [stage1] at h
  cases h1 : load_table User.Id i.usersLines with
  | error e => simp only [h1] at h; cases h
  | ok allUsers =>
    simp only [h1] at h
    cases h2 : loadPosts i.postsLines i.pwdLines with
    | error e => simp only [h2] at h; cases h
    | ok posts =>
      simp only [h2] at h
      cases h3 : load_table Comment.Id i.commentsLines with
      | error e => simp only [h3] at h; cases h
      | ok cs =>
        simp only [h3] at h
        rw [postsPass] at h
        cases h4 : dictGet allUsers (-1) with
        | none => simp only [h4] at h; cases h
        | some community =>
          simp only [h4] at h
          obtain ⟨hmap, _, _, hbody⟩ :=
            postsPassAux_spec allUsers community posts _ st1 h
          simp only [List.map_nil, List.nil_append] at hmap
          obtain ⟨hnd, hid⟩ := loadPosts_wf _ _ posts h2
          have hfe : (Prod.fst ∘ fun kv : Int × EPost => (kv.1, kv.2.post)) =
              (Prod.fst : Int × EPost → Int) := by
            funext kv; rfl
          have hkeys : dictKeys st1.arena = dictKeys posts := by
            rw [dictKeys, dictKeys, ← hmap, List.map_map, hfe]
          refine ⟨hkeys ▸ hnd, ?_, ?_⟩
          · intro kv hkv
            have hm : (kv.1, kv.2.post) ∈ posts := by
              rw [← hmap]
              exact List.mem_map_of_mem _ hkv
            exact hid _ hm
          · intro kv hkv
            rcases hbody kv hkv with h5 | h5
            · simp at h5
            · exact h5

/-! ### Spec of the question loop -/

theorem questionsPassAux_spec (ans : List (Int × EPost)) :
    ∀ (qs : List EPost) (acc : St),
      (dictKeys acc.arena).Nodup →
      (∀ kv ∈ acc.arena, kv.2.post.Id = kv.1) →
      answersDict acc.arena = ans →
      (∀ qe ∈ qs, qe.post.PostTypeId = 1 ∧
        dictGet acc.arena qe.post.Id = some qe) →
      (qs.map (fun qe => qe.post.Id)).Nodup →
      dictKeys (questionsPassAux qs acc).arena = dictKeys acc.arena ∧
      (∀ kv ∈ (questionsPassAux qs acc).arena, kv.2.post.Id = kv.1) ∧
      answersDict (questionsPassAux qs acc).arena = ans ∧
      (∀ msg ∈ acc.log, msg ∈ (questionsPassAux qs acc).log) ∧
      (∀ qe ∈ qs, ∀ msg ∈ qLog ans qe, msg ∈ (questionsPassAux qs acc).log) ∧
      (∀ k, dictGet (questionsPassAux qs acc).arena k =
        match qs.find? (fun qe => qe.post.Id = k) with
        | some qe => some (qUpdate ans qe)
        | none => dictGet acc.arena k) := by
  intro qs
  induction qs with
  | nil =>
    intro acc hnd hid hans _ _
    refine ⟨rfl, hid, hans, fun msg hm => hm, by simp, ?_⟩
    intro k
    simp [questionsPassAux, List.find?]
  | cons qe0 rest ih =>
    intro acc hnd hid hans hqs hnodup
    obtain ⟨hq0ty, hq0get⟩ := hqs qe0 (List.mem_cons_self _ _)
    rw [List.map_cons, List.nodup_cons] at hnodup
    have hkmem : qe0.post.Id ∈ dictKeys acc.arena := dictGet_some_mem_keys hq0get
    have harena' : (questionsStep acc qe0).arena =
        dictInsert acc.arena qe0.post.Id (qUpdate ans qe0) := by
      rw [questionsStep, hans]
    have hlog' : (questionsStep acc qe0).log = acc.log ++ qLog ans qe0 := by
      rw [questionsStep, hans]
    have hkeys' : dictKeys (questionsStep acc qe0).arena = dictKeys acc.arena := by
      rw [harena', dictKeys_insert_of_mem _ hkmem]
    have hid' : ∀ kv ∈ (questionsStep acc qe0).arena, kv.2.post.Id = kv.1 := by
      intro kv hkv
      rw [harena'] at hkv
      rcases mem_of_mem_dictInsert hkv with h1 | h1
      · exact hid kv h1
      · rw [h1]
        simp [qUpdate]
    have hans' : answersDict (questionsStep acc qe0).arena = ans := by
      rw [harena', answersDict,
        filter_dictInsert_irrelevant _ hq0get (by simp [hq0ty]) (by simp [qUpdate, hq0ty]),
        ← answersDict, hans]
    have hrest : ∀ qe ∈ rest, qe.post.PostTypeId = 1 ∧
        dictGet (questionsStep acc qe0).arena qe.post.Id = some qe := by
      intro qe hqe
      refine ⟨(hqs qe (List.mem_cons_of_mem _ hqe)).1, ?_⟩
      rw [harena', dictGet_insert_ne _ _ ?hne]
      · exact (hqs qe (List.mem_cons_of_mem _ hqe)).2
      case hne =>
        intro he
        apply hnodup.1
        rw [← he]
        exact List.mem_map_of_mem (fun qe => qe.post.Id) hqe
    have hstep : questionsPassAux (qe0 :: rest) acc =
        questionsPassAux rest (questionsStep acc qe0) := rfl
    obtain ⟨ihk, ihid, ihans, ihlogmono, ihlog, ihget⟩ :=
      ih (questionsStep acc qe0) (hkeys' ▸ hnd) hid' hans' hrest hnodup.2
    rw [hstep]
    refine ⟨ihk.trans hkeys', ihid, ihans, ?_, ?_, ?_⟩
    · intro msg hm
      exact ihlogmono msg (by rw [hlog']; exact List.mem_append_left _ hm)
    · intro qe hqe msg hmsg
      rcases List.mem_cons.mp hqe with h1 | h1
      · subst h1
        exact ihlogmono msg (by rw [hlog']; exact List.mem_append_right _ hmsg)
      · exact ihlog qe h1 msg hmsg
    · intro k
      by_cases hk : qe0.post.Id = k
      · subst hk
        rw [List.find?_cons_of_pos _ (by simp)]
        have hfn : rest.find? (fun qe => qe.post.Id = qe0.post.Id) = none := by
          rw [List.find?_eq_none]
          intro qe hqe hdec
          apply hnodup.1
          have heq : qe.post.Id = qe0.post.Id := by simpa using hdec
          rw [← heq]
          exact List.mem_map_of_mem (fun qe => qe.post.Id) hqe
        rw [ihget qe0.post.Id, hfn]
        rw [harena', dictGet_insert_self]
      · rw [List.find?_cons_of_neg _ (by simp [hk])]
        rw [ihget k]
        cases hf : rest.find? (fun qe => qe.post.Id = k) with
        | some qe => rfl
        | none =>
          rw [harena', dictGet_insert_ne _ _ (fun he => hk he.symm)]

/-! ### Spec of the answer loop -/

theorem questionsDict_get_of {ar : List (Int × EPost)} {k : Int} {qe : EPost}
    (hnd : (dictKeys ar).Nodup)
    (h : dictGet (questionsDict ar) k = some qe) :
    dictGet ar k = some qe ∧ qe.post.PostTypeId = 1 := by
  rw [questionsDict, dictGet_filter _ k hnd] at h
  cases hg : dictGet ar k with
  | none => rw [hg] at h; simp at h
  | some v =>
    rw [hg] at h
    by_cases hv : v.post.PostTypeId = 1
    · simp [hv] at h
      subst h
      exact ⟨rfl, hv⟩
    · simp [hv] at h

theorem questionsDict_get_intro {ar : List (Int × EPost)} {k : Int} {v : EPost}
    (hnd : (dictKeys ar).Nodup) (hg : dictGet ar k = some v)
    (hty : v.post.PostTypeId = 1) :
    dictGet (questionsDict ar) k = some v := by
  rw [questionsDict, dictGet_filter _ k hnd, hg]
  simp [hty]

theorem answerUpd_congr (qe ae : EPost) (x : List Post) :
    answerUpd { qe with Answers := x } ae = answerUpd qe ae := rfl

theorem answersPassAux_spec :
    ∀ (rest : List EPost) (ar ar' : List (Int × EPost)),
      answersPassAux rest ar = .ok ar' →
      (dictKeys ar).Nodup →
      (∀ kv ∈ ar, kv.2.post.Id = kv.1) →
      (∀ ae ∈ rest, ae.post.PostTypeId = 2 ∧ dictGet ar ae.post.Id = some ae) →
      (rest.map (fun ae => ae.post.Id)).Nodup →
      dictKeys ar' = dictKeys ar ∧
      (∀ kv ∈ ar', kv.2.post.Id = kv.1) ∧
      (∀ k v, dictGet ar k = some v → v.post.PostTypeId = 1 →
        ∃ ans', dictGet ar' k = some { v with Answers := ans' } ∧
          (List.Sorted scoreGe v.Answers → List.Sorted scoreGe ans') ∧
          (∀ s : Int, ans'.filter (fun x => decide (x.Score = s)) =
            v.Answers.filter (fun x => decide (x.Score = s)) ++
              (rest.map (fun ae => ae.post)).filter
                (fun x => decide (x.ParentId = k) && decide (x.Score = s)))) ∧
      (∀ k v, dictGet ar k = some v → ¬ v.post.PostTypeId = 1 →
        (∀ ae ∈ rest, ae.post.Id ≠ k) → dictGet ar' k = some v) ∧
      (∀ ae ∈ rest, ∃ qe,
        dictGet (questionsDict ar) ae.post.ParentId = some qe ∧
        dictGet ar' ae.post.Id = some (answerUpd qe ae)) := by
  intro rest
  induction rest with
  | nil =>
    intro ar ar' h hnd hid _ _
    rw [answersPassAux] at h
    cases h
    refine ⟨rfl, hid, ?_, ?_, ?_⟩
    · intro k v hv _
      refine ⟨v.Answers, ?_, fun hs => hs, ?_⟩
      · rw [hv]
      · intro s
        simp
    · intro k v hv _ _
      exact hv
    · intro ae hae
      simp at hae
  | cons ae rest' ih =>
    intro ar ar' h hnd hid hrest hnodup
    obtain ⟨haety, haeget⟩ := hrest ae (List.mem_cons_self _ _)
    rw [List.map_cons, List.nodup_cons] at hnodup
    rw [answersPassAux, answersStep] at h
    cases hpar : dictGet (questionsDict ar) ae.post.ParentId with
    | none => simp only [hpar] at h; cases h
    | some qe =>
      simp only [hpar] at h
      obtain ⟨hqget, hqty⟩ := questionsDict_get_of hnd hpar
      have hqid : qe.post.Id = ae.post.ParentId := by
        have hm : (ae.post.ParentId, qe) ∈ ar := dictGet_mem hqget
        exact hid _ hm
      have hPA : ae.post.Id ≠ ae.post.ParentId := by
        intro he
        rw [he, hqget] at haeget
        have heq : ae = qe := (Option.some.inj haeget).symm
        rw [heq, hqty] at haety
        cases haety
      set qeNew : EPost :=
        { qe with Answers := List.insertionSort scoreGe (qe.Answers ++ [ae.post]) }
        with hqeNewDef
      set ar1 : List (Int × EPost) :=
        dictInsert (dictInsert ar ae.post.Id (answerUpd qe ae)) qe.post.Id qeNew
        with har1Def
      have hg1 : ∀ k', dictGet ar1 k' =
          if k' = qe.post.Id then some qeNew
          else if k' = ae.post.Id then some (answerUpd qe ae)
          else dictGet ar k' := by
        intro k'
        rw [har1Def]
        by_cases h1 : k' = qe.post.Id
        · rw [if_pos h1, h1, dictGet_insert_self]
        · rw [if_neg h1, dictGet_insert_ne _ _ h1]
          by_cases h2 : k' = ae.post.Id
          · rw [if_pos h2, h2, dictGet_insert_self]
          · rw [if_neg h2, dictGet_insert_ne _ _ h2]
      have hkeys1 : dictKeys ar1 = dictKeys ar := by
        rw [har1Def, dictKeys_insert_of_mem, dictKeys_insert_of_mem]
        · exact dictGet_some_mem_keys haeget
        · rw [dictKeys_insert_of_mem _ (dictGet_some_mem_keys haeget), hqid]
          exact dictGet_some_mem_keys hqget
      have hid1 : ∀ kv ∈ ar1, kv.2.post.Id = kv.1 := by
        intro kv hkv
        rw [har1Def] at hkv
        rcases mem_of_mem_dictInsert hkv with h1 | h1
        · rcases mem_of_mem_dictInsert h1 with h2 | h2
          · exact hid kv h2
          · rw [h2]; rfl
        · rw [h1, hqeNewDef]
      have hrest1 : ∀ ae' ∈ rest', ae'.post.PostTypeId = 2 ∧
          dictGet ar1 ae'.post.Id = some ae' := by
        intro ae' hae'
        obtain ⟨hty', hget'⟩ := hrest ae' (List.mem_cons_of_mem _ hae')
        have hne1 : ae'.post.Id ≠ ae.post.Id := by
          intro he
          apply hnodup.1
          rw [← he]
          exact List.mem_map_of_mem (fun x => x.post.Id) hae'
        have hne2 : ae'.post.Id ≠ qe.post.Id := by
          intro he
          rw [he, hqid, hqget] at hget'
          have heq : ae' = qe := (Option.some.inj hget').symm
          rw [heq, hqty] at hty'
          cases hty'
        rw [hg1, if_neg hne2, if_neg hne1]
        exact ⟨hty', hget'⟩
      obtain ⟨ihK, ihM, ihQ, ihU, ihA⟩ :=
        ih ar1 ar' h (hkeys1.symm ▸ hnd) hid1 hrest1 hnodup.2
      refine ⟨ihK.trans hkeys1, ihM, ?qq, ?uu, ?aa⟩
      case qq =>
        intro k v hv hty1
        by_cases hk : k = qe.post.Id
        · subst hk
          have hvqe : v = qe := by
            rw [hqid] at hv
            exact Option.some.inj (hv.symm.trans hqget)
          rw [hvqe]
          obtain ⟨ans', hget', hsort', hfilt'⟩ :=
            ihQ qe.post.Id qeNew (by rw [hg1, if_pos rfl]) hqty
          refine ⟨ans', hget', ?_, ?_⟩
          · intro _
            apply hsort'
            have hqa : qeNew.Answers =
                List.insertionSort scoreGe (qe.Answers ++ [ae.post]) := by
              rw [hqeNewDef]
            rw [hqa]
            exact List.sorted_insertionSort scoreGe _
          · intro s
            rw [hfilt' s]
            have hqa : qeNew.Answers =
                List.insertionSort scoreGe (qe.Answers ++ [ae.post]) := by
              rw [hqeNewDef]
            rw [hqa]
            have hties : ∀ a b : Post, decide (a.Score = s) = true →
                decide (b.Score = s) = true → scoreGe a b := by
              intro a b ha hb
              simp at ha hb
              rw [scoreGe, ha, hb]
            rw [filter_insertionSort scoreGe (fun x => decide (x.Score = s))
              hties (qe.Answers ++ [ae.post])]
            conv_rhs => rw [List.map_cons, List.filter_cons]
            rw [List.filter_append, List.append_assoc]
            congr 1
            have hc : (decide (ae.post.ParentId = qe.post.Id) &&
                decide (ae.post.Score = s)) = decide (ae.post.Score = s) := by
              have hpe : ae.post.ParentId = qe.post.Id := hqid.symm
              simp [hpe]
            rw [hc]
            cases hsc : decide (ae.post.Score = s) with
            | true => simp [List.filter_cons, hsc]
            | false => simp [List.filter_cons, hsc]
        · by_cases hk2 : k = ae.post.Id
          · exfalso
            rw [hk2, haeget] at hv
            have heq : v = ae := Option.some.inj hv.symm
            rw [heq, haety] at hty1
            cases hty1
          · obtain ⟨ans', hget', hsort', hfilt'⟩ :=
              ihQ k v (by rw [hg1, if_neg hk, if_neg hk2]; exact hv) hty1
            refine ⟨ans', hget', hsort', ?_⟩
            intro s
            rw [hfilt' s]
            congr 1
            rw [List.map_cons, List.filter_cons]
            have hcf : (decide (ae.post.ParentId = k) &&
                decide (ae.post.Score = s)) = false := by
              have hne : ¬ ae.post.ParentId = k := by
                intro he
                apply hk
                rw [← he, ← hqid]
              simp [hne]
            rw [hcf]
            simp
      case uu =>
        intro k v hv hty2 hnotin
        have hne1 : k ≠ ae.post.Id := fun he =>
          hnotin ae (List.mem_cons_self _ _) he.symm
        have hne2 : k ≠ qe.post.Id := by
          intro he
          rw [he, hqid, hqget] at hv
          have heq : v = qe := Option.some.inj hv.symm
          apply hty2
          rw [heq]
          exact hqty
        refine ihU k v ?_ hty2 ?_
        · rw [hg1, if_neg hne2, if_neg hne1]
          exact hv
        · intro ae' hae'
          exact hnotin ae' (List.mem_cons_of_mem _ hae')
      case aa =>
        intro ae' hae'
        rcases List.mem_cons.mp hae' with h1 | h1
        · subst h1
          refine ⟨qe, hpar, ?_⟩
          refine ihU ae'.post.Id (answerUpd qe ae') ?_ ?_ ?_
          · rw [hg1]
            rw [if_neg (fun he => hPA (hqid ▸ he)), if_pos rfl]
          · intro h12
            have h12' : ae'.post.PostTypeId = 1 := h12
            rw [haety] at h12'
            cases h12'
          · intro ae'' hae''
            intro he
            apply hnodup.1
            rw [← he]
            exact List.mem_map_of_mem (fun x => x.post.Id) hae''
        · obtain ⟨qe1, hq1par, hq1get⟩ := ihA ae' h1
          obtain ⟨hq1ar, hq1ty⟩ :=
            questionsDict_get_of (hkeys1.symm ▸ hnd) hq1par
          rw [hg1] at hq1ar
          by_cases hc1 : ae'.post.ParentId = qe.post.Id
          · rw [if_pos hc1] at hq1ar
            have hq1 : qe1 = qeNew := Option.some.inj hq1ar.symm
            refine ⟨qe, ?_, ?_⟩
            · rw [hc1, hqid]
              exact hpar
            · rw [hq1, hqeNewDef, answerUpd_congr] at hq1get
              exact hq1get
          · rw [if_neg hc1] at hq1ar
            by_cases hc2 : ae'.post.ParentId = ae.post.Id
            · exfalso
              rw [if_pos hc2] at hq1ar
              have hq1 : qe1 = answerUpd qe ae := Option.some.inj hq1ar.symm
              rw [hq1] at hq1ty
              have h12 : ae.post.PostTypeId = 1 := hq1ty
              rw [haety] at h12
              cases h12
            · rw [if_neg hc2] at hq1ar
              exact ⟨qe1, questionsDict_get_intro hnd hq1ar hq1ty, hq1get⟩


/-! ### Spec of post-history streaming -/

/-- The revision rows of a `PostHistory` file, in table order. -/
def revRows (lines : List (PLine Revision)) : List Revision :=
  lines.filterMap (fun l => match l with
    | .row r => some r
    | _ => none)

theorem revRows_blank (l : List (PLine Revision)) :
    revRows (PLine.blank :: l) = revRows l := rfl

theorem revRows_malformed (l : List (PLine Revision)) :
    revRows (PLine.malformed :: l) = revRows l := rfl

theorem revRows_row (r : Revision) (l : List (PLine Revision)) :
    revRows (PLine.row r :: l) = r :: revRows l := rfl

theorem historyPassAux_get :
    ∀ (lines : List (PLine Revision)) (ar ar' : List (Int × EPost)),
      historyPassAux lines ar = .ok ar' →
      ∀ k v, dictGet ar k = some v →
        dictGet ar' k = some (
          match ((revRows lines).filter
              (fun r => qualifies r && decide (r.PostId = k))).getLast? with
          | some r => { v with BodySource := normBody r.Text }
          | none => v) := by
  intro lines
  induction lines with
  | nil =>
    intro ar ar' h k v hv
    rw [historyPassAux] at h
    cases h
    simp [revRows]
    exact hv
  | cons l rest ih =>
    intro ar ar' h k v hv
    cases l with
    | blank =>
      rw [historyPassAux, historyStep] at h
      rw [revRows_blank]
      exact ih ar ar' h k v hv
    | malformed =>
      rw [historyPassAux, historyStep] at h
      cases h
    | row rev =>
      rw [historyPassAux, historyStep] at h
      rw [revRows_row]
      by_cases hq : qualifies rev = true
      · rw [if_pos hq] at h
        cases hp : dictGet ar rev.PostId with
        | none => simp only [hp] at h; cases h
        | some e =>
          simp only [hp] at h
          by_cases hpk : rev.PostId = k
          · have hev : e = v := by
              rw [hpk, hv] at hp
              exact (Option.some.inj hp).symm
            subst hev
            have hget1 : dictGet
                (dictInsert ar rev.PostId { e with BodySource := normBody rev.Text }) k
                = some { e with BodySource := normBody rev.Text } := by
              rw [← hpk, dictGet_insert_self]
            have := ih _ ar' h k _ hget1
            rw [this]
            rw [List.filter_cons_of_pos (by simp [hq, hpk])]
            cases hfr : (revRows rest).filter
                (fun r => qualifies r && decide (r.PostId = k)) with
            | nil => simp
            | cons x xs =>
              rw [List.getLast?_cons_cons]
              cases hgl : (x :: xs).getLast? with
              | none => simp at hgl
              | some r => rfl
          · have hget1 : dictGet
                (dictInsert ar rev.PostId { e with BodySource := normBody rev.Text }) k
                = dictGet ar k :=
              dictGet_insert_ne _ _ (fun he => hpk he.symm)
            have := ih _ ar' h k v (hget1.trans hv)
            rw [this]
            rw [List.filter_cons_of_neg (by simp [hpk])]
      · rw [if_neg hq] at h
        have := ih ar ar' h k v hv
        rw [this]
        rw [List.filter_cons_of_neg (by simp [hq])]

theorem historyPassAux_error :
    ∀ (lines : List (PLine Revision)) (ar : List (Int × EPost)),
      (∃ r ∈ revRows lines, qualifies r = true ∧ dictGet ar r.PostId = none) →
      ∃ e, historyPassAux lines ar = .error e := by
  intro lines
  induction lines with
  | nil =>
    intro ar h
    obtain ⟨r, hr, _⟩ := h
    simp [revRows] at hr
  | cons l rest ih =>
    intro ar h
    cases l with
    | blank =>
      rw [revRows_blank] at h
      obtain ⟨e, he⟩ := ih ar h
      exact ⟨e, by rw [historyPassAux, historyStep]; exact he⟩
    | malformed =>
      exact ⟨"json.decoder.JSONDecodeError", by rw [historyPassAux, historyStep]⟩
    | row rev =>
      rw [revRows_row] at h
      obtain ⟨r, hr, hrq, hrn⟩ := h
      by_cases hq : qualifies rev = true
      · cases hp : dictGet ar rev.PostId with
        | none =>
          refine ⟨"KeyError: " ++ toString rev.PostId, ?_⟩
          rw [historyPassAux, historyStep, if_pos hq, hp]
        | some e =>
          have hrrest : r ∈ revRows rest := by
            rcases List.mem_cons.mp hr with h1 | h1
            · exfalso
              rw [h1, hp] at hrn
              cases hrn
            · exact h1
          have hne : r.PostId ≠ rev.PostId := by
            intro he
            rw [he, hp] at hrn
            cases hrn
          have hrn1 : dictGet
              (dictInsert ar rev.PostId { e with BodySource := normBody rev.Text })
              r.PostId = none := by
            rw [dictGet_insert_ne _ _ hne]
            exact hrn
          obtain ⟨e2, he2⟩ := ih _ ⟨r, hrrest, hrq, hrn1⟩
          refine ⟨e2, ?_⟩
          rw [historyPassAux, historyStep, if_pos hq, hp]
          exact he2
      · have hrrest : r ∈ revRows rest := by
          rcases List.mem_cons.mp hr with h1 | h1
          · exfalso
            rw [h1] at hrq
            exact hq hrq
          · exact h1
        obtain ⟨e2, he2⟩ := ih ar ⟨r, hrrest, hrq, hrn⟩
        refine ⟨e2, ?_⟩
        rw [historyPassAux, historyStep, if_neg hq]
        exact he2

/-- A dangling `ParentId` makes the answer loop raise. -/
theorem answersPassAux_error (rest : List EPost) (ar : List (Int × EPost))
    (hnd : (dictKeys ar).Nodup)
    (hid : ∀ kv ∈ ar, kv.2.post.Id = kv.1)
    (hrest : ∀ ae ∈ rest, ae.post.PostTypeId = 2 ∧ dictGet ar ae.post.Id = some ae)
    (hnodup : (rest.map (fun ae => ae.post.Id)).Nodup)
    (hdangling : ∃ ae ∈ rest, dictGet (questionsDict ar) ae.post.ParentId = none) :
    ∃ e, answersPassAux rest ar = .error e := by
  cases hres : answersPassAux rest ar with
  | error e => exact ⟨e, rfl⟩
  | ok ar' =>
    exfalso
    obtain ⟨ae, hae, hnone⟩ := hdangling
    obtain ⟨qe, hsome, _⟩ :=
      (answersPassAux_spec rest ar ar' hres hnd hid hrest hnodup).2.2.2.2 ae hae
    rw [hnone] at hsome
    cases hsome

/-! ### Summary of the state after the question loop -/

theorem questionsList_mem {ar : List (Int × EPost)} {qe : EPost}
    (h : qe ∈ questionsList ar) :
    ∃ k, (k, qe) ∈ ar ∧ qe.post.PostTypeId = 1 := by
  rw [questionsList] at h
  obtain ⟨kv, hkv, hsnd⟩ := List.mem_map.mp h
  refine ⟨kv.1, ?_, ?_⟩
  · have := List.mem_of_mem_filter hkv
    rw [← hsnd]
    simpa using this
  · have := List.of_mem_filter hkv
    rw [← hsnd]
    simpa using this

theorem questionsList_ids_nodup {ar : List (Int × EPost)}
    (hnd : (dictKeys ar).Nodup)
    (hid : ∀ kv ∈ ar, kv.2.post.Id = kv.1) :
    ((questionsList ar).map (fun qe => qe.post.Id)).Nodup := by
  have heq : (questionsList ar).map (fun qe => qe.post.Id) =
      dictKeys (questionsDict ar) := by
    rw [questionsList, dictKeys, List.map_map]
    refine List.map_congr_left ?_
    intro kv hkv
    exact hid kv (List.mem_of_mem_filter hkv)
  rw [heq]
  exact dictKeys_filter_nodup _ hnd

theorem answersList_mem {ar : List (Int × EPost)} {ae : EPost}
    (h : ae ∈ answersList ar) :
    ∃ k, (k, ae) ∈ ar ∧ ae.post.PostTypeId = 2 := by
  rw [answersList] at h
  obtain ⟨kv, hkv, hsnd⟩ := List.mem_map.mp h
  refine ⟨kv.1, ?_, ?_⟩
  · have := List.mem_of_mem_filter hkv
    rw [← hsnd]
    simpa using this
  · have := List.of_mem_filter hkv
    rw [← hsnd]
    simpa using this

theorem answersList_ids_nodup {ar : List (Int × EPost)}
    (hnd : (dictKeys ar).Nodup)
    (hid : ∀ kv ∈ ar, kv.2.post.Id = kv.1) :
    ((answersList ar).map (fun ae => ae.post.Id)).Nodup := by
  have heq : (answersList ar).map (fun ae => ae.post.Id) =
      dictKeys (answersDict ar) := by
    rw [answersList, dictKeys, List.map_map]
    refine List.map_congr_left ?_
    intro kv hkv
    exact hid kv (List.mem_of_mem_filter hkv)
  rw [heq]
  exact dictKeys_filter_nodup _ hnd

theorem stage2_spec (i : Input) (st2 : St) (h2 : stage2 i = .ok st2) :
    (dictKeys st2.arena).Nodup ∧
    (∀ kv ∈ st2.arena, kv.2.post.Id = kv.1) ∧
    (∀ kv ∈ st2.arena, kv.2.BodySource = kv.2.post.Body) ∧
    (∀ kv ∈ st2.arena, kv.2.post.PostTypeId = 1 →
      kv.2.Answers = [] ∧
      kv.2.Slug = questionSlug kv.2.post.Title kv.2.post.Id ∧
      kv.2.AcceptedAnswer = (match kv.2.post.AcceptedAnswerId with
        | some aid => (dictGet (answersDict st2.arena) aid).map (fun e => e.post)
        | none => none)) ∧
    (∀ kv ∈ st2.arena, kv.2.post.PostTypeId = 1 →
      ∀ aid, kv.2.post.AcceptedAnswerId = some aid →
        dictGet (answersDict st2.arena) aid = none →
        ("Failed to find accepted answer with ID " ++ toString aid ++ ".") ∈
          st2.log) := by
  rw [stage2] at h2
  cases h1 : stage1 i with
  | error e => simp only [h1] at h2; cases h2
  | ok st1 =>
    simp only [h1] at h2
    cases h2
    obtain ⟨hnd1, hid1, hbody1⟩ := stage1_wf i st1 h1
    have hqs : ∀ qe ∈ questionsList st1.arena, qe.post.PostTypeId = 1 ∧
        dictGet st1.arena qe.post.Id = some qe := by
      intro qe hqe
      obtain ⟨k, hmem, hty⟩ := questionsList_mem hqe
      have hkey : qe.post.Id = k := hid1 (k, qe) hmem
      refine ⟨hty, ?_⟩
      rw [hkey]
      exact mem_dictGet hmem hnd1
    obtain ⟨hK, hM, hAns, hLogMono, hLog, hGet⟩ :=
      questionsPassAux_spec (answersDict st1.arena) (questionsList st1.arena)
        st1 hnd1 hid1 rfl hqs (questionsList_ids_nodup hnd1 hid1)
    rw [questionsPass]
    have hndA : (dictKeys (questionsPassAux (questionsList st1.arena) st1).arena).Nodup := by
      rw [hK]; exact hnd1
    have hmemget : ∀ kv ∈ (questionsPassAux (questionsList st1.arena) st1).arena,
        dictGet (questionsPassAux (questionsList st1.arena) st1).arena kv.1 = some kv.2 := by
      intro kv hkv
      cases kv with
      | mk k v => exact mem_dictGet hkv hndA
    refine ⟨hndA, hM, ?_, ?_, ?_⟩
    · intro kv hkv
      have hget := hmemget kv hkv
      rw [hGet kv.1] at hget
      cases hf : (questionsList st1.arena).find? (fun qe => qe.post.Id = kv.1) with
      | some qe0 =>
        rw [hf] at hget
        have hkv2 : kv.2 = qUpdate (answersDict st1.arena) qe0 :=
          (Option.some.inj hget).symm
        have hq0mem : qe0 ∈ questionsList st1.arena := List.mem_of_find?_eq_some hf
        have hq0get := (hqs qe0 hq0mem).2
        have hq0body : qe0.BodySource = qe0.post.Body :=
          hbody1 _ (dictGet_mem hq0get)
        rw [hkv2]
        simp only [qUpdate]
        exact hq0body
      | none =>
        rw [hf] at hget
        exact hbody1 _ (dictGet_mem hget)
    case refine_3 =>
      intro kv hkv hty1 aid haid hnone
      have hget := hmemget kv hkv
      rw [hGet kv.1] at hget
      cases hf : (questionsList st1.arena).find? (fun qe => qe.post.Id = kv.1) with
      | some qe0 =>
        rw [hf] at hget
        have hkv2 : kv.2 = qUpdate (answersDict st1.arena) qe0 :=
          (Option.some.inj hget).symm
        have hq0mem : qe0 ∈ questionsList st1.arena := List.mem_of_find?_eq_some hf
        have hpost : kv.2.post = qe0.post := by rw [hkv2]; rfl
        have hq0aid : qe0.post.AcceptedAnswerId = some aid := by
          rw [← hpost]; exact haid
        rw [hAns] at hnone
        refine hLog qe0 hq0mem _ ?_
        simp [qLog, hq0aid, hnone]
      | none =>
        exfalso
        rw [hf] at hget
        have hmem1 : kv.2 ∈ questionsList st1.arena := by
          rw [questionsList, questionsDict]
          refine List.mem_map.mpr ⟨(kv.1, kv.2), ?_, rfl⟩
          refine List.mem_filter.mpr ⟨dictGet_mem hget, by simpa using hty1⟩
        have := List.find?_eq_none.mp hf kv.2 hmem1
        have hidkv : kv.2.post.Id = kv.1 := hid1 _ (dictGet_mem hget)
        simp [hidkv] at this
    case refine_2 =>
      intro kv hkv hty1
      have hget := hmemget kv hkv
      rw [hGet kv.1] at hget
      cases hf : (questionsList st1.arena).find? (fun qe => qe.post.Id = kv.1) with
      | some qe0 =>
        rw [hf] at hget
        have hkv2 : kv.2 = qUpdate (answersDict st1.arena) qe0 :=
          (Option.some.inj hget).symm
        rw [hkv2]
        refine ⟨by simp [qUpdate], by simp [qUpdate], ?_⟩
        rw [hAns]
        simp only [qUpdate]
      | none =>
        exfalso
        rw [hf] at hget
        have hmem1 : kv.2 ∈ questionsList st1.arena := by
          rw [questionsList, questionsDict]
          refine List.mem_map.mpr ⟨(kv.1, kv.2), ?_, rfl⟩
          refine List.mem_filter.mpr ⟨dictGet_mem hget, by simpa using hty1⟩
        have := List.find?_eq_none.mp hf kv.2 hmem1
        have hidkv : kv.2.post.Id = kv.1 := hid1 _ (dictGet_mem hget)
        simp [hidkv] at this


/-! ### Properties of the slug computation (lines 216, 238) -/

/-- Characters that can appear in a slug: `[a-z0-9]` or the hyphen. -/
def isSlugChar (c : Char) : Bool :=
  isAlnumLower c || c = '-'

/-- ASCII alphanumeric characters (before lower-casing). -/
def isAlnumAny (c : Char) : Bool :=
  ('a' ≤ c && c ≤ 'z') || ('A' ≤ c && c ≤ 'Z') || ('0' ≤ c && c ≤ '9')

/-- The ASCII range, on which the modelled `str.lower()` (`pyLower`)
coincides with CPython's. -/
def isAsciiChar (c : Char) : Bool :=
  c.toNat < 128

/-- No two adjacent characters are both outside `[a-z0-9]`. -/
def okAdj (l : List Char) : Prop :=
  List.Chain' (fun a b => isAlnumLower a = true ∨ isAlnumLower b = true) l

theorem pyLower_fixed {c : Char} (h : isSlugChar c = true) : pyLower c = c := by
  rw [pyLower, if_neg]
  rintro ⟨hA, hZ⟩
  rw [isSlugChar, Bool.or_eq_true, isAlnumLower, Bool.or_eq_true] at h
  rcases h with (h | h) | h
  · rw [Bool.and_eq_true, decide_eq_true_iff, decide_eq_true_iff] at h
    exact absurd (le_trans h.1 hZ) (by decide)
  · rw [Bool.and_eq_true, decide_eq_true_iff, decide_eq_true_iff] at h
    exact absurd (le_trans hA h.2) (by decide)
  · rw [decide_eq_true_iff] at h
    rw [h] at hA
    exact absurd hA (by decide)

theorem pyLower_nonalnum {c : Char} (h : isAlnumAny c = false) :
    isAlnumLower (pyLower c) = false := by
  rw [isAlnumAny] at h
  simp only [Bool.or_eq_false_iff, Bool.and_eq_false_iff] at h
  rw [pyLower, if_neg]
  · rw [isAlnumLower]
    simp only [Bool.or_eq_false_iff, Bool.and_eq_false_iff]
    exact ⟨h.1.1, h.2⟩
  · rintro ⟨hA, hZ⟩
    rcases h.1.2 with h1 | h1
    · rw [decide_eq_false_iff_not] at h1
      exact h1 hA
    · rw [decide_eq_false_iff_not] at h1
      exact h1 hZ

theorem collapseAux_mem :
    ∀ (l : List Char) (b : Bool), ∀ c ∈ collapseAux b l, isSlugChar c = true := by
  intro l
  induction l with
  | nil => intro b c hc; simp [collapseAux] at hc
  | cons c0 rest ih =>
    intro b c hc
    rw [collapseAux] at hc
    by_cases ha : isAlnumLower c0 = true
    · rw [if_pos ha] at hc
      rcases List.mem_cons.mp hc with h1 | h1
      · rw [h1, isSlugChar, ha, Bool.true_or]
      · exact ih false c h1
    · rw [if_neg (by simp [ha])] at hc
      cases b with
      | true =>
        rw [if_pos rfl] at hc
        exact ih true c hc
      | false =>
        rw [if_neg (by simp)] at hc
        rcases List.mem_cons.mp hc with h1 | h1
        · rw [h1]
          decide
        · exact ih true c h1

theorem collapseAux_adj :
    ∀ l : List Char, okAdj (collapseAux false l) ∧
      (okAdj (collapseAux true l) ∧
        ∀ c, (collapseAux true l).head? = some c → isAlnumLower c = true) := by
  intro l
  induction l with
  | nil =>
    refine ⟨List.chain'_nil, List.chain'_nil, ?_⟩
    intro c hc
    simp [collapseAux] at hc
  | cons c0 rest ih =>
    by_cases ha : isAlnumLower c0 = true
    · have hcons : okAdj (c0 :: collapseAux false rest) := by
        rw [okAdj, List.chain'_cons']
        exact ⟨fun y _ => Or.inl ha, ih.1⟩
      constructor
      · rw [collapseAux, if_pos ha]
        exact hcons
      constructor
      · rw [collapseAux, if_pos ha]
        exact hcons
      · intro c hc
        rw [collapseAux, if_pos ha] at hc
        rw [List.head?_cons] at hc
        rw [← Option.some.inj hc]
        exact ha
    · constructor
      · rw [collapseAux, if_neg (by simp [ha]), if_neg (by simp)]
        rw [okAdj, List.chain'_cons']
        refine ⟨?_, ih.2.1⟩
        intro y hy
        exact Or.inr (ih.2.2 y hy)
      constructor
      · rw [collapseAux, if_neg (by simp [ha]), if_pos rfl]
        exact ih.2.1
      · intro c hc
        rw [collapseAux, if_neg (by simp [ha]), if_pos rfl] at hc
        exact ih.2.2 c hc

theorem collapseAux_fixed :
    ∀ l : List Char, (∀ c ∈ l, isSlugChar c = true) → okAdj l →
      collapseAux false l = l ∧
      (∀ c, l.head? = some c → isAlnumLower c = true → collapseAux true l = l) := by
  intro l
  induction l with
  | nil => exact fun _ _ => ⟨rfl, fun c hc _ => by simp at hc⟩
  | cons c0 rest ih =>
    intro hmem hadj
    have hadjr : okAdj rest := (List.chain'_cons'.mp hadj).2
    have hmemr : ∀ c ∈ rest, isSlugChar c = true :=
      fun c hc => hmem c (List.mem_cons_of_mem _ hc)
    obtain ⟨ihf, iht⟩ := ih hmemr hadjr
    by_cases ha : isAlnumLower c0 = true
    · constructor
      · rw [collapseAux, if_pos ha, ihf]
      · intro c _ _
        rw [collapseAux, if_pos ha, ihf]
    · have hc0 : c0 = '-' := by
        have hsl := hmem c0 (List.mem_cons_self _ _)
        rw [isSlugChar, Bool.or_eq_true] at hsl
        rcases hsl with h1 | h1
        · exact absurd h1 ha
        · exact decide_eq_true_iff.mp h1
      constructor
      · rw [collapseAux, if_neg (by simp [ha]), if_neg (by simp)]
        cases rest with
        | nil => simp [collapseAux, hc0]
        | cons d rest2 =>
          have hd : isAlnumLower d = true := by
            have hrel := (List.chain'_cons'.mp hadj).1 d (by simp)
            rcases hrel with h1 | h1
            · exact absurd h1 ha
            · exact h1
          rw [iht d rfl hd, hc0]
      · intro c hc halnum
        rw [List.head?_cons] at hc
        rw [← Option.some.inj hc, hc0] at halnum
        exact absurd halnum (by decide)

theorem mem_ltrim {l : List Char} {c : Char} (h : c ∈ ltrim l) : c ∈ l :=
  ((List.dropWhile_suffix _).sublist).mem h

theorem ltrim_head :
    ∀ (l : List Char) (c : Char) (t : List Char), ltrim l = c :: t → ¬ c = '-' := by
  intro l
  induction l with
  | nil => intro c t h; simp [ltrim] at h
  | cons c0 rest ih =>
    intro c t h
    by_cases hc0 : c0 = '-'
    · rw [ltrim, List.dropWhile_cons_of_pos (by simp [hc0])] at h
      exact ih c t h
    · rw [ltrim, List.dropWhile_cons_of_neg (by simp [hc0])] at h
      cases h
      exact hc0

theorem ltrim_of_head {l : List Char}
    (h : ∀ c, l.head? = some c → ¬ c = '-') : ltrim l = l := by
  cases l with
  | nil => rfl
  | cons c0 rest =>
    rw [ltrim, List.dropWhile_cons_of_neg]
    simp [h c0 (by rw [List.head?_cons])]

theorem getLast?_ltrim :
    ∀ l : List Char, ltrim l ≠ [] → (ltrim l).getLast? = l.getLast? := by
  intro l
  induction l with
  | nil => intro h; rfl
  | cons c0 rest ih =>
    intro h
    by_cases hc0 : c0 = '-'
    · have hstep : ltrim (c0 :: rest) = ltrim rest := by
        rw [ltrim, ltrim, List.dropWhile_cons_of_pos (by simp [hc0])]
      rw [hstep] at h ⊢
      have hrest : rest ≠ [] := by
        intro he
        rw [he] at h
        exact h rfl
      rw [ih h]
      cases rest with
      | nil => exact absurd rfl hrest
      | cons d rest2 => rw [List.getLast?_cons_cons]
    · have hstep : ltrim (c0 :: rest) = c0 :: rest := by
        rw [ltrim, List.dropWhile_cons_of_neg (by simp [hc0])]
      rw [hstep]

theorem stripDashes_fixed {l : List Char}
    (h1 : ∀ c, l.head? = some c → ¬ c = '-')
    (h2 : ∀ c, l.getLast? = some c → ¬ c = '-') : stripDashes l = l := by
  rw [stripDashes]
  have hrev : ltrim l.reverse = l.reverse := by
    refine ltrim_of_head ?_
    intro c hc
    rw [List.head?_reverse] at hc
    exact h2 c hc
  rw [hrev, List.reverse_reverse]
  exact ltrim_of_head h1

theorem mem_stripDashes {l : List Char} {c : Char} (h : c ∈ stripDashes l) :
    c ∈ l := by
  rw [stripDashes] at h
  have h1 := mem_ltrim h
  rw [List.mem_reverse] at h1
  have h2 := mem_ltrim h1
  rw [List.mem_reverse] at h2
  exact h2

theorem okAdj_ltrim {l : List Char} (h : okAdj l) : okAdj (ltrim l) := by
  obtain ⟨t, ht⟩ := List.dropWhile_suffix (l := l) (fun c => decide (c = '-'))
  rw [okAdj, ← ht] at h
  exact h.right_of_append

theorem okAdj_reverse {l : List Char} (h : okAdj l) : okAdj l.reverse := by
  rw [okAdj, List.chain'_reverse]
  exact List.Chain'.imp (fun a b hab => hab.symm) h

theorem okAdj_stripDashes {l : List Char} (h : okAdj l) :
    okAdj (stripDashes l) := by
  rw [stripDashes]
  exact okAdj_ltrim (okAdj_reverse (okAdj_ltrim (okAdj_reverse h)))

theorem stripDashes_head {l : List Char} {c : Char}
    (h : (stripDashes l).head? = some c) : ¬ c = '-' := by
  rw [stripDashes] at h
  cases he : ltrim ((ltrim l.reverse).reverse) with
  | nil => rw [he] at h; cases h
  | cons d t =>
    rw [he, List.head?_cons] at h
    rw [← Option.some.inj h]
    exact ltrim_head _ d t he

theorem stripDashes_last {l : List Char} {c : Char}
    (h : (stripDashes l).getLast? = some c) : ¬ c = '-' := by
  rw [stripDashes] at h
  have hne : ltrim ((ltrim l.reverse).reverse) ≠ [] := by
    intro he
    rw [he] at h
    cases h
  rw [getLast?_ltrim _ hne, List.getLast?_reverse] at h
  cases he : ltrim l.reverse with
  | nil => rw [he] at h; cases h
  | cons d t =>
    rw [he, List.head?_cons] at h
    rw [← Option.some.inj h]
    exact ltrim_head _ d t he

theorem collapseAux_length :
    ∀ (l : List Char) (b : Bool), (collapseAux b l).length ≤ l.length := by
  intro l
  induction l with
  | nil => intro b; simp [collapseAux]
  | cons c0 rest ih =>
    intro b
    rw [collapseAux]
    by_cases ha : isAlnumLower c0 = true
    · rw [if_pos ha, List.length_cons, List.length_cons]
      exact Nat.succ_le_succ (ih false)
    · rw [if_neg (by simp [ha])]
      cases b with
      | true =>
        rw [if_pos rfl, List.length_cons]
        exact le_trans (ih true) (Nat.le_succ _)
      | false =>
        rw [if_neg (by simp), List.length_cons, List.length_cons]
        exact Nat.succ_le_succ (ih true)

theorem ltrim_length (l : List Char) : (ltrim l).length ≤ l.length :=
  ((List.dropWhile_suffix _).sublist).length_le

theorem stripDashes_length (l : List Char) :
    (stripDashes l).length ≤ l.length := by
  rw [stripDashes]
  refine le_trans (ltrim_length _) ?_
  rw [List.length_reverse]
  refine le_trans (ltrim_length _) ?_
  rw [List.length_reverse]

/-- `slugify` is idempotent: slugs are fixed points of the slug computation. -/
theorem slugify_idem (s : String) : slugify (slugify s) = slugify s := by
  rw [slugify, slugify]
  have hdata : (String.mk (stripDashes (collapse ((s.data.take 80).map pyLower)))).data =
      stripDashes (collapse ((s.data.take 80).map pyLower)) := rfl
  rw [hdata]
  have hmem : ∀ c ∈ stripDashes (collapse ((s.data.take 80).map pyLower)),
      isSlugChar c = true := by
    intro c hc
    exact collapseAux_mem _ false c (mem_stripDashes hc)
  have hadj : okAdj (stripDashes (collapse ((s.data.take 80).map pyLower))) :=
    okAdj_stripDashes (collapseAux_adj _).1
  have hlen : (stripDashes (collapse ((s.data.take 80).map pyLower))).length ≤ 80 := by
    refine le_trans (stripDashes_length _) ?_
    refine le_trans (collapseAux_length _ false) ?_
    rw [List.length_map]
    exact List.length_take_le _ _
  rw [List.take_of_length_le hlen]
  have hmap : (stripDashes (collapse ((s.data.take 80).map pyLower))).map pyLower =
      stripDashes (collapse ((s.data.take 80).map pyLower)) := by
    have h1 : (stripDashes (collapse ((s.data.take 80).map pyLower))).map pyLower =
        (stripDashes (collapse ((s.data.take 80).map pyLower))).map id :=
      List.map_congr_left (fun c hc => pyLower_fixed (hmem c hc))
    rw [h1, List.map_id]
  rw [hmap]
  have hcfix : collapse (stripDashes (collapse ((s.data.take 80).map pyLower))) =
      stripDashes (collapse ((s.data.take 80).map pyLower)) :=
    (collapseAux_fixed _ hmem hadj).1
  rw [hcfix]
  exact congrArg String.mk (stripDashes_fixed
    (fun c hc => stripDashes_head hc) (fun c hc => stripDashes_last hc))

theorem collapseAux_true_all {l : List Char}
    (h : ∀ c ∈ l, isAlnumLower c = false) : collapseAux true l = [] := by
  induction l with
  | nil => rfl
  | cons c0 rest ih =>
    have hc0 := h c0 (List.mem_cons_self _ _)
    rw [collapseAux, if_neg (by simp [hc0]), if_pos rfl]
    exact ih (fun c hc => h c (List.mem_cons_of_mem _ hc))

theorem collapse_nonalnum {l : List Char} (hne : l ≠ [])
    (h : ∀ c ∈ l, isAlnumLower c = false) : collapse l = ['-'] := by
  cases l with
  | nil => exact absurd rfl hne
  | cons c0 rest =>
    have hc0 := h c0 (List.mem_cons_self _ _)
    rw [collapse, collapseAux, if_neg (by simp [hc0]), if_neg (by simp)]
    rw [collapseAux_true_all (fun c hc => h c (List.mem_cons_of_mem _ hc))]

/-- A nonempty ASCII title with no alphanumeric character slugs to the
empty string, so the `or`-fallback fires.  The ASCII hypothesis scopes the
statement to where `pyLower` provably coincides with CPython's `lower()`
(beyond ASCII, Unicode lower-casing can map a letter such as U+212A into
`[a-z]` and defeat the fallback); the model-level proof itself does not
consume it. -/
theorem slugify_nonalnum (s : String) (hne : s.data ≠ [])
    (_hascii : ∀ c ∈ s.data, isAsciiChar c = true)
    (h : ∀ c ∈ s.data, isAlnumAny c = false) : slugify s = "" := by
  rw [slugify]
  have hmne : (s.data.take 80).map pyLower ≠ [] := by
    intro he
    have := congrArg List.length he
    rw [List.length_map, List.length_take, List.length_nil] at this
    have hpos : 0 < s.data.length := List.length_pos.mpr hne
    omega
  have hmall : ∀ c ∈ (s.data.take 80).map pyLower, isAlnumLower c = false := by
    intro c hc
    obtain ⟨c0, hc0, hc0e⟩ := List.mem_map.mp hc
    rw [← hc0e]
    exact pyLower_nonalnum (h c0 (List.mem_of_mem_take hc0))
  rw [collapse_nonalnum hmne hmall]
  rfl


/-! ### Packaging of the state reaching the answer loop -/

theorem stage3_spec (i : Input) (st3 : St) (h3 : stage3 i = .ok st3) :
    ∃ st2, stage2 i = .ok st2 ∧ st3.users = st2.users ∧ st3.log = st2.log ∧
      answersPassAux (answersList st2.arena) st2.arena = .ok st3.arena ∧
      (dictKeys st2.arena).Nodup ∧
      (∀ kv ∈ st2.arena, kv.2.post.Id = kv.1) ∧
      (∀ ae ∈ answersList st2.arena, ae.post.PostTypeId = 2 ∧
        dictGet st2.arena ae.post.Id = some ae) ∧
      ((answersList st2.arena).map (fun ae => ae.post.Id)).Nodup := by
  rw [stage3] at h3
  cases h2 : stage2 i with
  | error e => simp only [h2] at h3; cases h3
  | ok st2 =>
    simp only [h2] at h3
    rw [answersPass] at h3
    cases hax : answersPassAux (answersList st2.arena) st2.arena with
    | error e => simp only [hax] at h3; cases h3
    | ok ar =>
      simp only [hax] at h3
      cases h3
      obtain ⟨hnd2, hid2, _, _⟩ := stage2_spec i st2 h2
      refine ⟨st2, rfl, rfl, rfl, hax, hnd2, hid2, ?_, ?_⟩
      · intro ae hae
        obtain ⟨k, hmem, hty⟩ := answersList_mem hae
        have hkey : ae.post.Id = k := hid2 (k, ae) hmem
        refine ⟨hty, ?_⟩
        rw [hkey]
        exact mem_dictGet hmem hnd2
      · exact answersList_ids_nodup hnd2 hid2

/-! ### Order of the rendered answer blocks -/

/-- Descending score with ties by ascending id, on rendered blocks. -/
def blockLe (b1 b2 : Block) : Prop :=
  b2.Score < b1.Score ∨ (b1.Score = b2.Score ∧ b1.Id ≤ b2.Id)

theorem renderAnswerBlocks_pairwise (ar : List (Int × EPost)) (qe : EPost) :
    List.Pairwise blockLe (renderAnswerBlocks ar qe) := by
  rw [renderAnswerBlocks]
  have hsorted : List.Pairwise rlex (List.insertionSort rlex qe.Answers) :=
    List.sorted_insertionSort rlex qe.Answers
  refine List.Pairwise.filterMap _ ?_ hsorted
  intro a b hab x hx y hy
  simp only [Option.mem_def, Option.map_eq_some'] at hx hy
  obtain ⟨ea, _, hxa⟩ := hx
  obtain ⟨eb, _, hyb⟩ := hy
  rw [← hxa, ← hyb]
  rcases hab with h1 | h1
  · exact Or.inl h1
  · exact Or.inr h1

theorem mem_renderAnswerBlocks {ar : List (Int × EPost)} {qe : EPost}
    {b : Block} (h : b ∈ renderAnswerBlocks ar qe) :
    ∃ (p : Post) (e : EPost), dictGet ar p.Id = some e ∧
      b = { Id := p.Id, Score := p.Score, body := chooseBody e } := by
  rw [renderAnswerBlocks] at h
  obtain ⟨p, _, hp⟩ := List.mem_filterMap.mp h
  rw [Option.map_eq_some'] at hp
  obtain ⟨e, he, hb⟩ := hp
  exact ⟨p, e, he, hb.symm⟩

theorem mem_pages {st : St} {page : Page} (h : page ∈ (render st).pages) :
    ∃ qe ∈ questionsList st.arena, page = renderPage st.arena qe := by
  rw [render] at h
  obtain ⟨qe, hqe, hp⟩ := List.mem_map.mp h
  exact ⟨qe, hqe, hp.symm⟩

theorem pipeline_render (i : Input) (out : Output)
    (h : pipeline i = .ok out) :
    ∃ st5, stage5 i = .ok st5 ∧ out = render st5 := by
  rw [pipeline] at h
  cases h5 : stage5 i with
  | error e => simp only [h5] at h; cases h
  | ok st5 =>
    simp only [h5] at h
    cases h
    exact ⟨st5, rfl, rfl⟩


/-- Every arena entry survives the answer loop with its `post`,
`BodySource`, `AcceptedAnswer` and `Slug` unchanged. -/
theorem stage3_entry (i : Input) (st3 : St) (h3 : stage3 i = .ok st3) :
    ∃ st2, stage2 i = .ok st2 ∧
      dictKeys st3.arena = dictKeys st2.arena ∧
      (∀ k e3, dictGet st3.arena k = some e3 →
        ∃ v, dictGet st2.arena k = some v ∧ e3.post = v.post ∧
          e3.BodySource = v.BodySource ∧ e3.AcceptedAnswer = v.AcceptedAnswer ∧
          e3.Slug = v.Slug) := by
  obtain ⟨st2, h2, _, _, hax, hnd2, hid2, hfacts, hnodup⟩ := stage3_spec i st3 h3
  obtain ⟨hK, hM, hQ, hU, hA⟩ :=
    answersPassAux_spec _ _ _ hax hnd2 hid2 hfacts hnodup
  refine ⟨st2, h2, hK, ?_⟩
  intro k e3 hke3
  have hkmem : k ∈ dictKeys st2.arena := by
    rw [← hK]
    exact dictGet_some_mem_keys hke3
  cases hv : dictGet st2.arena k with
  | none => exact absurd hkmem (dictGet_eq_none.mp hv)
  | some v =>
    by_cases hty : v.post.PostTypeId = 1
    · obtain ⟨ans', hget, _, _⟩ := hQ k v hv hty
      rw [hke3] at hget
      have he3 : e3 = { v with Answers := ans' } := Option.some.inj hget
      exact ⟨v, rfl, by rw [he3], by rw [he3], by rw [he3], by rw [he3]⟩
    · by_cases hex : ∃ ae ∈ answersList st2.arena, ae.post.Id = k
      · obtain ⟨ae, haem, haeid⟩ := hex
        have haev : ae = v := by
          have hg := (hfacts ae haem).2
          rw [haeid, hv] at hg
          exact (Option.some.inj hg).symm
        obtain ⟨qe0, _, hgetA⟩ := hA ae haem
        rw [haeid, hke3] at hgetA
        have he3 : e3 = answerUpd qe0 ae := Option.some.inj hgetA
        refine ⟨v, rfl, ?_, ?_, ?_, ?_⟩ <;> (rw [he3, ← haev]; rfl)
      · push_neg at hex
        have hu := hU k v hv hty (fun ae hae => hex ae hae)
        rw [hke3] at hu
        have he3 : e3 = v := Option.some.inj hu
        exact ⟨v, rfl, by rw [he3], by rw [he3], by rw [he3], by rw [he3]⟩


/-! ### Further helpers for the claim theorems -/

/-- The spec sentence for the body heuristic read literally as an ordered
condition: some occurrence of `][` with a later occurrence of ` [`. -/
def followingCond : List Char → Bool
  | [] => false
  | c :: rest =>
    (startsWith (c :: rest) [']', '['] && containsSub rest [' ', '[']) ||
      followingCond rest

/-- A structurally invalid line anywhere in the file makes `json.loads`
raise, aborting `load_table`. -/
theorem load_tableAux_malformed {α : Type} (getId : α → Int) :
    ∀ (lines : List (PLine α)) (m : List (Int × α)), PLine.malformed ∈ lines →
      load_tableAux getId lines m = .error "json.decoder.JSONDecodeError" := by
  intro lines
  induction lines with
  | nil =>
    intro m h
    simp at h
  | cons l rest ih =>
    intro m h
    cases l with
    | blank =>
      rw [load_tableAux]
      refine ih m ?_
      rcases List.mem_cons.mp h with h1 | h1
      · cases h1
      · exact h1
    | malformed => rw [load_tableAux]
    | row v =>
      rw [load_tableAux]
      refine ih _ ?_
      rcases List.mem_cons.mp h with h1 | h1
      · cases h1
      · exact h1

theorem load_table_malformed {α : Type} (getId : α → Int)
    (lines : List (PLine α)) (h : PLine.malformed ∈ lines) :
    load_table getId lines = .error "json.decoder.JSONDecodeError" :=
  load_tableAux_malformed getId lines [] h

/-- A structurally invalid `PostHistory` line aborts the streaming loop. -/
theorem historyPassAux_malformed :
    ∀ (lines : List (PLine Revision)) (ar : List (Int × EPost)),
      PLine.malformed ∈ lines → ∃ e, historyPassAux lines ar = .error e := by
  intro lines
  induction lines with
  | nil =>
    intro ar h
    simp at h
  | cons l rest ih =>
    intro ar h
    cases l with
    | blank =>
      have hrest : PLine.malformed ∈ rest := by
        rcases List.mem_cons.mp h with h1 | h1
        · cases h1
        · exact h1
      obtain ⟨e, he⟩ := ih ar hrest
      refine ⟨e, ?_⟩
      rw [historyPassAux, historyStep]
      exact he
    | malformed =>
      refine ⟨"json.decoder.JSONDecodeError", ?_⟩
      rw [historyPassAux, historyStep]
    | row rev =>
      have hrest : PLine.malformed ∈ rest := by
        rcases List.mem_cons.mp h with h1 | h1
        · cases h1
        · exact h1
      by_cases hq : qualifies rev = true
      · cases hp : dictGet ar rev.PostId with
        | none =>
          refine ⟨"KeyError: " ++ toString rev.PostId, ?_⟩
          rw [historyPassAux, historyStep, if_pos hq, hp]
        | some e0 =>
          obtain ⟨e, he⟩ := ih _ hrest
          refine ⟨e, ?_⟩
          rw [historyPassAux, historyStep, if_pos hq, hp]
          exact he
      · obtain ⟨e, he⟩ := ih ar hrest
        refine ⟨e, ?_⟩
        rw [historyPassAux, historyStep, if_neg hq]
        exact he

/-- Streaming `PostHistory` only overwrites existing arena entries, so the
key set is unchanged. -/
theorem historyPassAux_keys :
    ∀ (lines : List (PLine Revision)) (ar ar' : List (Int × EPost)),
      historyPassAux lines ar = .ok ar' → dictKeys ar' = dictKeys ar := by
  intro lines
  induction lines with
  | nil =>
    intro ar ar' h
    rw [historyPassAux] at h
    cases h
    rfl
  | cons l rest ih =>
    intro ar ar' h
    cases l with
    | blank =>
      rw [historyPassAux, historyStep] at h
      exact ih ar ar' h
    | malformed =>
      rw [historyPassAux, historyStep] at h
      cases h
    | row rev =>
      rw [historyPassAux, historyStep] at h
      by_cases hq : qualifies rev = true
      · rw [if_pos hq] at h
        cases hp : dictGet ar rev.PostId with
        | none =>
          simp only [hp] at h
          cases h
        | some e =>
          simp only [hp] at h
          have hk := ih _ _ h
          rw [hk]
          exact dictKeys_insert_of_mem _ (dictGet_some_mem_keys hp)
      · rw [if_neg hq] at h
        exact ih ar ar' h

/-- A successful `stage1` presupposes successful `Users` and `Comments`
loads. -/
theorem stage1_loads (i : Input) (st1 : St) (h1 : stage1 i = .ok st1) :
    (∃ u, load_table User.Id i.usersLines = .ok u) ∧
    (∃ c, load_table Comment.Id i.commentsLines = .ok c) := by
  rw [stage1] at h1
  cases hu : load_table User.Id i.usersLines with
  | error e =>
    simp only [hu] at h1
    cases h1
  | ok au =>
    simp only [hu] at h1
    cases hp : loadPosts i.postsLines i.pwdLines with
    | error e =>
      simp only [hp] at h1
      cases h1
    | ok posts =>
      simp only [hp] at h1
      cases hc : load_table Comment.Id i.commentsLines with
      | error e =>
        simp only [hc] at h1
        cases h1
      | ok cm => exact ⟨⟨au, rfl⟩, ⟨cm, rfl⟩⟩

/-- Unpacking a successful `stage5`. -/
theorem stage5_spec (i : Input) (st5 : St) (h5 : stage5 i = .ok st5) :
    ∃ st3, stage3 i = .ok st3 ∧
      historyPassAux i.historyLines st3.arena = .ok st5.arena ∧
      st5.users = st3.users ∧ st5.log = st3.log := by
  rw [stage5] at h5
  cases h3 : stage3 i with
  | error e =>
    simp only [h3] at h5
    cases h5
  | ok st3 =>
    simp only [h3] at h5
    cases hh : historyPass st3.arena i.historyLines with
    | error e =>
      simp only [hh] at h5
      cases h5
    | ok ar =>
      simp only [hh] at h5
      cases h5
      rw [historyPass] at hh
      exact ⟨st3, rfl, hh, rfl, rfl⟩

/-- An answer row resolves to itself through the `Answers` sub-dictionary. -/
theorem answersDict_get_self {ar : List (Int × EPost)} {ae : EPost}
    (hnd : (dictKeys ar).Nodup) (hget : dictGet ar ae.post.Id = some ae)
    (hty : ae.post.PostTypeId = 2) :
    dictGet (answersDict ar) ae.post.Id = some ae := by
  rw [answersDict, dictGet_filter _ _ hnd, hget]
  simp [hty]


/-- The final state of a question entry: its row, accepted-answer
resolution, and its fully populated `Answers` list (sorted by descending
score, ties in answer-iteration order). -/
theorem stage3_question_entry (i : Input) (st3 : St) (h3 : stage3 i = .ok st3) :
    ∃ st2, stage2 i = .ok st2 ∧
      ∀ k e3, dictGet st3.arena k = some e3 → e3.post.PostTypeId = 1 →
        ∃ v, dictGet st2.arena k = some v ∧ e3.post = v.post ∧
          e3.AcceptedAnswer = v.AcceptedAnswer ∧
          v.AcceptedAnswer = (match v.post.AcceptedAnswerId with
            | some aid => (dictGet (answersDict st2.arena) aid).map (fun e => e.post)
            | none => none) ∧
          List.Sorted scoreGe e3.Answers ∧
          (∀ s : Int, e3.Answers.filter (fun x => decide (x.Score = s)) =
            ((answersList st2.arena).map (fun ae => ae.post)).filter
              (fun x => decide (x.ParentId = k) && decide (x.Score = s))) := by
  obtain ⟨st2, h2, _, _, hax, hnd2, hid2, hfacts, hnodup⟩ := stage3_spec i st3 h3
  obtain ⟨hK, hM, hQ, hU, hA⟩ := answersPassAux_spec _ _ _ hax hnd2 hid2 hfacts hnodup
  obtain ⟨_, _, _, hq4, _⟩ := stage2_spec i st2 h2
  obtain ⟨st2x, h2x, _, hent⟩ := stage3_entry i st3 h3
  rw [h2] at h2x
  injection h2x with h2x2
  subst h2x2
  refine ⟨st2, h2, ?_⟩
  intro k e3 hke3 hty3
  obtain ⟨v, hv, hpost, _, hacc, _⟩ := hent k e3 hke3
  have hvty : v.post.PostTypeId = 1 := by rw [← hpost]; exact hty3
  obtain ⟨ans', hget', hsortimp, hfilter⟩ := hQ k v hv hvty
  rw [hke3] at hget'
  have he3 : e3 = { v with Answers := ans' } := Option.some.inj hget'
  have hnil : v.Answers = [] := (hq4 (k, v) (dictGet_mem hv) hvty).1
  have haccv : v.AcceptedAnswer = (match v.post.AcceptedAnswerId with
      | some aid => (dictGet (answersDict st2.arena) aid).map (fun e => e.post)
      | none => none) := (hq4 (k, v) (dictGet_mem hv) hvty).2.2
  have hans : e3.Answers = ans' := by rw [he3]
  refine ⟨v, hv, hpost, hacc, haccv, ?_, ?_⟩
  · rw [hans]
    refine hsortimp ?_
    rw [hnil]
    exact List.sorted_nil
  · intro s
    rw [hans, hfilter s, hnil]
    rfl


/-! ### Concrete runs used by the witnesses and counterexamples -/

def wCommunity : User := { Id := -1, DisplayName := "Community" }

def wQ1 : Post :=
  { Id := 1, Score := 5, Title := "Hello World", Tags := ["alpha"],
    AcceptedAnswerId := some 11 }

def wA11 : Post :=
  { Id := 11, PostTypeId := 2, Score := 3, ParentId := 1, Body := "HTMLBODY" }

def wA12 : Post :=
  { Id := 12, PostTypeId := 2, Score := 7, ParentId := 1 }

/-- A small healthy run: one question, two answers (the accepted one and a
higher-scored one), one qualifying history event. -/
def wInput : Input :=
  { usersLines := [.row wCommunity],
    postsLines := [.row wQ1, .row wA11, .row wA12],
    pwdLines := [],
    commentsLines := [],
    historyLines :=
      [.row { PostId := 11, PostHistoryTypeId := 2, Text := "history text" }] }

def wSt2 : St := match stage2 wInput with | .ok st => st | .error _ => default

def wSt3 : St := match stage3 wInput with | .ok st => st | .error _ => default

def wSt5 : St := match stage5 wInput with | .ok st => st | .error _ => default

def wOut : Output := match pipeline wInput with | .ok o => o | .error _ => default

def wPage : Page := wOut.pages.headD default

def wBlock : Block := wPage.blocks.headD default

/-! ### The claims -/

/-- C1: after the answer loop every question entry's `Answers` list is
sorted by descending `Score`, with equal scores kept in answer-iteration
(append) order; and every rendered page's answer blocks come in descending
`Score` order with ties broken by ascending `Id`. -/
theorem C1_answer_order (i : Input) (st3 : St) (h3 : stage3 i = .ok st3) :
    (∃ st2, stage2 i = .ok st2 ∧
      ∀ k e3, dictGet st3.arena k = some e3 → e3.post.PostTypeId = 1 →
        List.Sorted scoreGe e3.Answers ∧
        (∀ s : Int, e3.Answers.filter (fun x => decide (x.Score = s)) =
          ((answersList st2.arena).map (fun ae => ae.post)).filter
            (fun x => decide (x.ParentId = k) && decide (x.Score = s)))) ∧
    (∀ out, pipeline i = .ok out → ∀ page ∈ out.pages,
      List.Pairwise blockLe page.blocks) := by
  constructor
  · obtain ⟨st2, h2, hq⟩ := stage3_question_entry i st3 h3
    refine ⟨st2, h2, ?_⟩
    intro k e3 hke3 hty
    obtain ⟨v, _, _, _, _, hsort, hfil⟩ := hq k e3 hke3 hty
    exact ⟨hsort, hfil⟩
  · intro out hout page hpage
    obtain ⟨st5, _, hrender⟩ := pipeline_render i out hout
    rw [hrender] at hpage
    obtain ⟨qe, _, hpg⟩ := mem_pages hpage
    rw [hpg]
    show List.Pairwise blockLe
      (if qe.Answers.isEmpty then [] else renderAnswerBlocks st5.arena qe)
    by_cases he : qe.Answers.isEmpty = true
    · rw [if_pos he]
      exact List.Pairwise.nil
    · rw [if_neg he]
      exact renderAnswerBlocks_pairwise _ _

/-- C1 on the concrete run: answer 12 (score 7) precedes answer 11. -/
theorem C1_answer_order_witness :
    stage3 wInput = .ok wSt3 ∧
    ((∃ st2, stage2 wInput = .ok st2 ∧
      ∀ k e3, dictGet wSt3.arena k = some e3 → e3.post.PostTypeId = 1 →
        List.Sorted scoreGe e3.Answers ∧
        (∀ s : Int, e3.Answers.filter (fun x => decide (x.Score = s)) =
          ((answersList st2.arena).map (fun ae => ae.post)).filter
            (fun x => decide (x.ParentId = k) && decide (x.Score = s)))) ∧
     (∀ out, pipeline wInput = .ok out → ∀ page ∈ out.pages,
        List.Pairwise blockLe page.blocks)) ∧
    (dictGet wSt3.arena 1).map (fun e => e.Answers.map (fun a => a.Id)) =
      some [12, 11] :=
  ⟨rfl, C1_answer_order wInput wSt3 rfl, rfl⟩

/-- C2: after history streaming, each surviving post entry's `BodySource`
is the `Text` of the last qualifying history event for that post with line
endings normalized, or the table's `Body` when no qualifying event exists. -/
theorem C2_bodysource (i : Input) (st5 : St) (h5 : stage5 i = .ok st5) :
    ∀ k e5, dictGet st5.arena k = some e5 →
      e5.BodySource =
        (match ((revRows i.historyLines).filter
            (fun r => qualifies r && decide (r.PostId = k))).getLast? with
         | some r => normBody r.Text
         | none => e5.post.Body) := by
  obtain ⟨st3, h3, hhp, _, _⟩ := stage5_spec i st5 h5
  obtain ⟨st2, h2, _, hent⟩ := stage3_entry i st3 h3
  obtain ⟨_, _, hbody2, _, _⟩ := stage2_spec i st2 h2
  intro k e5 hk5
  have hkeys5 : dictKeys st5.arena = dictKeys st3.arena :=
    historyPassAux_keys _ _ _ hhp
  have hkmem : k ∈ dictKeys st3.arena := by
    rw [← hkeys5]
    exact dictGet_some_mem_keys hk5
  cases hv3 : dictGet st3.arena k with
  | none => exact absurd hkmem (dictGet_eq_none.mp hv3)
  | some e3 =>
    have hg := historyPassAux_get _ _ _ hhp k e3 hv3
    rw [hk5] at hg
    have he5 := Option.some.inj hg
    cases hL : ((revRows i.historyLines).filter
        (fun r => qualifies r && decide (r.PostId = k))).getLast? with
    | some r =>
      rw [hL] at he5
      have he5x : e5 = { e3 with BodySource := normBody r.Text } := he5
      show e5.BodySource = normBody r.Text
      rw [he5x]
    | none =>
      rw [hL] at he5
      have he5x : e5 = e3 := he5
      obtain ⟨v, hv, hpost, hbs, _, _⟩ := hent k e3 hv3
      have hb := hbody2 (k, v) (dictGet_mem hv)
      show e5.BodySource = e5.post.Body
      rw [he5x, hbs, hpost]
      exact hb

/-- C2 on the concrete run: post 11's `BodySource` becomes the history
text, the untouched posts keep their table `Body`. -/
theorem C2_bodysource_witness :
    stage5 wInput = .ok wSt5 ∧
    (∀ k e5, dictGet wSt5.arena k = some e5 →
      e5.BodySource =
        (match ((revRows wInput.historyLines).filter
            (fun r => qualifies r && decide (r.PostId = k))).getLast? with
         | some r => normBody r.Text
         | none => e5.post.Body)) ∧
    (dictGet wSt5.arena 11).map (fun e => e.BodySource) = some "history text" ∧
    (dictGet wSt5.arena 12).map (fun e => e.BodySource) = some "" :=
  ⟨rfl, C2_bodysource wInput wSt5 rfl, rfl, rfl⟩


/-- C3: an answer whose `ParentId` matches no loaded question makes
`Questions[answer.ParentId]` raise `KeyError`: the run aborts and no pages
are produced. -/
theorem C3_dangling_parent (i : Input) (st2 : St) (h2 : stage2 i = .ok st2)
    (hd : ∃ ae ∈ answersList st2.arena,
      dictGet (questionsDict st2.arena) ae.post.ParentId = none) :
    ∃ e, pipeline i = .error e := by
  obtain ⟨hnd2, hid2, _, _, _⟩ := stage2_spec i st2 h2
  have hrest : ∀ ae ∈ answersList st2.arena, ae.post.PostTypeId = 2 ∧
      dictGet st2.arena ae.post.Id = some ae := by
    intro ae hae
    obtain ⟨k, hmem, hty⟩ := answersList_mem hae
    have hkey : ae.post.Id = k := hid2 (k, ae) hmem
    refine ⟨hty, ?_⟩
    rw [hkey]
    exact mem_dictGet hmem hnd2
  obtain ⟨e, herr⟩ := answersPassAux_error (answersList st2.arena) st2.arena
    hnd2 hid2 hrest (answersList_ids_nodup hnd2 hid2) hd
  refine ⟨e, ?_⟩
  simp only [pipeline, stage5, stage3, h2, answersPass, herr]

def cex3Input : Input :=
  { usersLines := [.row wCommunity],
    postsLines :=
      [.row { Id := 1, Title := "One" },
       .row { Id := 21, PostTypeId := 2, ParentId := 99 }],
    pwdLines := [], commentsLines := [], historyLines := [] }

def cex3St2 : St := match stage2 cex3Input with | .ok st => st | .error _ => default

/-- C3 on a concrete run: answer 21 references the unknown question 99 and
the pipeline errors out. -/
theorem C3_dangling_parent_witness :
    stage2 cex3Input = .ok cex3St2 ∧
    (∃ ae ∈ answersList cex3St2.arena,
      dictGet (questionsDict cex3St2.arena) ae.post.ParentId = none) ∧
    (∃ e, pipeline cex3Input = .error e) :=
  ⟨rfl, by decide, C3_dangling_parent cex3Input cex3St2 rfl (by decide)⟩

/-- C4: a question whose `AcceptedAnswerId` resolves to no loaded answer
gets `AcceptedAnswer = None`, the error is logged, and the question loop
finishes normally. -/
theorem C4_dangling_accepted (i : Input) (st1 : St) (h1 : stage1 i = .ok st1) :
    ∃ st2, stage2 i = .ok st2 ∧
      ∀ kv ∈ st2.arena, kv.2.post.PostTypeId = 1 →
        ∀ aid, kv.2.post.AcceptedAnswerId = some aid →
          dictGet (answersDict st2.arena) aid = none →
          kv.2.AcceptedAnswer = none ∧
          ("Failed to find accepted answer with ID " ++ toString aid ++ ".") ∈
            st2.log := by
  have h2 : stage2 i = .ok (questionsPass st1) := by
    simp only [stage2, h1]
  refine ⟨questionsPass st1, h2, ?_⟩
  intro kv hkv hty aid haid hnone
  obtain ⟨_, _, _, hq4, hq5⟩ := stage2_spec i (questionsPass st1) h2
  refine ⟨?_, hq5 kv hkv hty aid haid hnone⟩
  have hacc := (hq4 kv hkv hty).2.2
  simp only [hacc, haid, hnone, Option.map_none']

def cex4Input : Input :=
  { usersLines := [.row wCommunity],
    postsLines := [.row { Id := 1, Title := "Hi", AcceptedAnswerId := some 99 }],
    pwdLines := [], commentsLines := [], historyLines := [] }

def cex4St1 : St := match stage1 cex4Input with | .ok st => st | .error _ => default

def cex4St2 : St := match stage2 cex4Input with | .ok st => st | .error _ => default

def cex4Out : Output := match pipeline cex4Input with | .ok o => o | .error _ => default

/-- C4 on a concrete run: `AcceptedAnswerId = 99` resolves to nothing; the
error is logged, `AcceptedAnswer` ends `None` and the run continues. -/
theorem C4_dangling_accepted_witness :
    stage1 cex4Input = .ok cex4St1 ∧
    (∃ st2, stage2 cex4Input = .ok st2 ∧
      ∀ kv ∈ st2.arena, kv.2.post.PostTypeId = 1 →
        ∀ aid, kv.2.post.AcceptedAnswerId = some aid →
          dictGet (answersDict st2.arena) aid = none →
          kv.2.AcceptedAnswer = none ∧
          ("Failed to find accepted answer with ID " ++ toString aid ++ ".") ∈
            st2.log) ∧
    ("Failed to find accepted answer with ID 99." ∈ cex4St2.log) ∧
    (dictGet cex4St2.arena 1).map (fun e => e.AcceptedAnswer) = some none ∧
    (∃ out, pipeline cex4Input = .ok out) :=
  ⟨rfl, C4_dangling_accepted cex4Input cex4St1 rfl, by decide, rfl,
    ⟨cex4Out, rfl⟩⟩

/-- C5: an answer's final `IsAccepted` is the bag-equality test
`answer == question.AcceptedAnswer`, and it holds exactly when the parent
question's `AcceptedAnswerId` is this answer's id. -/
theorem C5_isaccepted (i : Input) (st3 : St) (h3 : stage3 i = .ok st3) :
    ∃ st2, stage2 i = .ok st2 ∧
      ∀ ae ∈ answersList st2.arena, ∃ qe e3,
        dictGet (questionsDict st2.arena) ae.post.ParentId = some qe ∧
        dictGet st3.arena ae.post.Id = some e3 ∧ e3.post = ae.post ∧
        (e3.IsAccepted = true ↔ qe.AcceptedAnswer = some ae.post) ∧
        (e3.IsAccepted = true ↔ qe.post.AcceptedAnswerId = some ae.post.Id) := by
  obtain ⟨st2, h2, _, _, hax, hnd2, hid2, hfacts, hnodup⟩ := stage3_spec i st3 h3
  obtain ⟨hK, hM, hQ, hU, hA⟩ := answersPassAux_spec _ _ _ hax hnd2 hid2 hfacts hnodup
  obtain ⟨_, _, _, hq4, _⟩ := stage2_spec i st2 h2
  refine ⟨st2, h2, ?_⟩
  intro ae hae
  obtain ⟨qe, hqget, haget⟩ := hA ae hae
  refine ⟨qe, answerUpd qe ae, hqget, haget, rfl, ?_, ?_⟩
  · show accOf qe ae = true ↔ qe.AcceptedAnswer = some ae.post
    cases hqa : qe.AcceptedAnswer with
    | some acc =>
      simp only [accOf, hqa, decide_eq_true_eq, Option.some.injEq]
      exact eq_comm
    | none =>
      simp only [accOf, hqa]
      constructor
      · intro h
        simp at h
      · intro h
        simp at h
  · show accOf qe ae = true ↔ qe.post.AcceptedAnswerId = some ae.post.Id
    have hqmem : (ae.post.ParentId, qe) ∈ st2.arena :=
      List.mem_of_mem_filter (dictGet_mem hqget)
    have hqty : qe.post.PostTypeId = 1 := by
      have := List.of_mem_filter (dictGet_mem hqget)
      simpa using this
    have hqacc := (hq4 (ae.post.ParentId, qe) hqmem hqty).2.2
    have hself : dictGet (answersDict st2.arena) ae.post.Id = some ae :=
      answersDict_get_self hnd2 (hfacts ae hae).2 (hfacts ae hae).1
    cases haid : qe.post.AcceptedAnswerId with
    | none =>
      have hqa : qe.AcceptedAnswer = none := by
        rw [hqacc, haid]
      simp only [accOf, hqa]
      constructor
      · intro h
        simp at h
      · intro h
        simp at h
    | some aid =>
      have hqa : qe.AcceptedAnswer =
          (dictGet (answersDict st2.arena) aid).map (fun e => e.post) := by
        rw [hqacc, haid]
      cases hga : dictGet (answersDict st2.arena) aid with
      | none =>
        have hqa0 : qe.AcceptedAnswer = none := by
          rw [hqa, hga]
          rfl
        have hne : aid ≠ ae.post.Id := by
          intro he
          rw [he, hself] at hga
          cases hga
        simp only [accOf, hqa0, Option.some.injEq]
        constructor
        · intro h
          simp at h
        · intro h
          exact absurd h hne
      | some eacc =>
        have hqa1 : qe.AcceptedAnswer = some eacc.post := by
          rw [hqa, hga]
          rfl
        have heid : eacc.post.Id = aid :=
          hid2 (aid, eacc) (List.mem_of_mem_filter (dictGet_mem hga))
        simp only [accOf, hqa1, decide_eq_true_eq, Option.some.injEq]
        constructor
        · intro h
          rw [h, heid]
        · intro h
          rw [h, hself] at hga
          have hee : ae = eacc := Option.some.inj hga
          rw [hee]

/-- C5 on the concrete run: answer 11 is accepted, answer 12 is not. -/
theorem C5_isaccepted_witness :
    stage3 wInput = .ok wSt3 ∧
    (∃ st2, stage2 wInput = .ok st2 ∧
      ∀ ae ∈ answersList st2.arena, ∃ qe e3,
        dictGet (questionsDict st2.arena) ae.post.ParentId = some qe ∧
        dictGet wSt3.arena ae.post.Id = some e3 ∧ e3.post = ae.post ∧
        (e3.IsAccepted = true ↔ qe.AcceptedAnswer = some ae.post) ∧
        (e3.IsAccepted = true ↔ qe.post.AcceptedAnswerId = some ae.post.Id)) ∧
    (dictGet wSt3.arena 11).map (fun e => e.IsAccepted) = some true ∧
    (dictGet wSt3.arena 12).map (fun e => e.IsAccepted) = some false :=
  ⟨rfl, C5_isaccepted wInput wSt3 rfl, rfl, rfl⟩

/-- C6: the pipeline's slugs are the source computation (`slugify` with the
`or`-fallback) applied to the first 80 characters; the computation is
deterministic and idempotent, and any nonempty all-non-alphanumeric ASCII
input falls back to `post{Id}` / `user{Id}`.  The fallback conjunct is
stated for ASCII titles only: that is the range on which the embedded
`pyLower` provably coincides with CPython's `str.lower()` - outside ASCII
the Unicode case table can map a letter (e.g. U+212A, which lowers to `k`)
into `[a-z]`, so a non-ASCII title escaping the fallback is not in the
claim's all-non-alphanumeric class yet not decidable from this model. -/
theorem C6_slug :
    (∀ i st2, stage2 i = .ok st2 →
      ∀ kv ∈ st2.arena, kv.2.post.PostTypeId = 1 →
        kv.2.Slug = questionSlug kv.2.post.Title kv.2.post.Id) ∧
    (∀ (users : List (Int × User)), ∀ kv ∈ usersPass users,
      kv.2.Slug = userSlug kv.2.user.DisplayName kv.2.user.Id) ∧
    (∀ s : String, slugify (slugify s) = slugify s) ∧
    (∀ (s : String) (n : Int), s.data ≠ [] →
      (∀ c ∈ s.data, isAsciiChar c = true) →
      (∀ c ∈ s.data, isAlnumAny c = false) →
      questionSlug s n = "post" ++ toString n ∧
      userSlug s n = "user" ++ toString n) := by
  refine ⟨?_, ?_, fun s => slugify_idem s, ?_⟩
  · intro i st2 h2 kv hkv hty
    exact ((stage2_spec i st2 h2).2.2.2.1 kv hkv hty).2.1
  · intro users kv hkv
    obtain ⟨kv0, _, hkv0⟩ := List.mem_map.mp hkv
    rw [← hkv0]
    rfl
  · intro s n hne hascii hall
    have hs : slugify s = "" := slugify_nonalnum s hne hascii hall
    constructor
    · rw [questionSlug, if_pos hs]
    · rw [userSlug, if_pos hs]

/-- C6 on concrete data: `"Hello World"` slugs to `hello-world`
idempotently, and the all-punctuation ASCII title falls back to
`post7`/`user7`. -/
theorem C6_slug_witness :
    (∀ kv ∈ wSt2.arena, kv.2.post.PostTypeId = 1 →
      kv.2.Slug = questionSlug kv.2.post.Title kv.2.post.Id) ∧
    slugify (slugify "Hello World") = slugify "Hello World" ∧
    questionSlug "!!!" 7 = "post" ++ toString (7 : Int) ∧
    userSlug "!!!" 7 = "user" ++ toString (7 : Int) ∧
    slugify "Hello World" = "hello-world" :=
  ⟨C6_slug.1 wInput wSt2 rfl, C6_slug.2.2.1 "Hello World",
   (C6_slug.2.2.2 "!!!" 7 (by decide) (by decide) (by decide)).1,
   (C6_slug.2.2.2 "!!!" 7 (by decide) (by decide) (by decide)).2, rfl⟩


/-- C7 (amended): a question's resolved accepted answer is a member of the
question's final `Answers` list provided its `ParentId` is this very
question; without that proviso the property fails (see the
counterexample). -/
theorem C7_accepted_member (i : Input) (st3 : St) (h3 : stage3 i = .ok st3) :
    ∀ k e3, dictGet st3.arena k = some e3 → e3.post.PostTypeId = 1 →
      ∀ acc, e3.AcceptedAnswer = some acc → acc.ParentId = k →
        acc ∈ e3.Answers := by
  obtain ⟨st2, h2, hq⟩ := stage3_question_entry i st3 h3
  intro k e3 hke3 hty acc hacc hpar
  obtain ⟨v, hv, hpost, haccv, haccform, _, hfil⟩ := hq k e3 hke3 hty
  rw [haccv] at hacc
  rw [haccform] at hacc
  cases haid : v.post.AcceptedAnswerId with
  | none =>
    rw [haid] at hacc
    cases hacc
  | some aid =>
    rw [haid] at hacc
    have hacc1 : (dictGet (answersDict st2.arena) aid).map (fun e => e.post) =
        some acc := hacc
    obtain ⟨eacc, hga, hpacc⟩ := Option.map_eq_some'.mp hacc1
    have hmemL : eacc ∈ answersList st2.arena :=
      List.mem_map.mpr ⟨(aid, eacc), dictGet_mem hga, rfl⟩
    have hmem2 : acc ∈ ((answersList st2.arena).map (fun ae => ae.post)).filter
        (fun x => decide (x.ParentId = k) && decide (x.Score = acc.Score)) := by
      refine List.mem_filter.mpr ⟨List.mem_map.mpr ⟨eacc, hmemL, hpacc⟩, ?_⟩
      simp [hpar]
    have hmem3 : acc ∈ e3.Answers.filter (fun x => decide (x.Score = acc.Score)) := by
      rw [hfil acc.Score]
      exact hmem2
    exact List.mem_of_mem_filter hmem3

/-- C7 (amended) on the concrete run: question 1's accepted answer 11 is in
its `Answers`. -/
theorem C7_accepted_member_witness :
    stage3 wInput = .ok wSt3 ∧
    (∀ k e3, dictGet wSt3.arena k = some e3 → e3.post.PostTypeId = 1 →
      ∀ acc, e3.AcceptedAnswer = some acc → acc.ParentId = k →
        acc ∈ e3.Answers) ∧
    (dictGet wSt3.arena 1).map (fun e => e.AcceptedAnswer) = some (some wA11) ∧
    (dictGet wSt3.arena 1).map (fun e => decide (wA11 ∈ e.Answers)) = some true :=
  ⟨rfl, C7_accepted_member wInput wSt3 rfl, rfl, rfl⟩

def cex7A : Post := { Id := 11, PostTypeId := 2, ParentId := 2, Score := 3 }

def cex7Input : Input :=
  { usersLines := [.row wCommunity],
    postsLines :=
      [.row { Id := 1, Title := "One", AcceptedAnswerId := some 11 },
       .row { Id := 2, Title := "Two" },
       .row cex7A],
    pwdLines := [], commentsLines := [], historyLines := [] }

def cex7St3 : St := match stage3 cex7Input with | .ok st => st | .error _ => default

/-- C7 counterexample to the unamended claim: question 1's
`AcceptedAnswerId` names answer 11, which belongs to question 2, so after
the full enrichment question 1 has a non-null `AcceptedAnswer` that is not
a member of its (empty) `Answers` list. -/
theorem C7_accepted_member_cex :
    stage3 cex7Input = .ok cex7St3 ∧
    (dictGet cex7St3.arena 1).map (fun e => e.post.PostTypeId) = some 1 ∧
    (dictGet cex7St3.arena 1).map (fun e => e.AcceptedAnswer) =
      some (some cex7A) ∧
    (dictGet cex7St3.arena 1).map (fun e => decide (cex7A ∈ e.Answers)) =
      some false :=
  ⟨rfl, rfl, rfl, rfl⟩

/-- C8 (amended): an unparsable line aborts `load_table` for any table; an
unparsable line in `Users`, `Comments` or `PostHistory` aborts the whole
run; but for the `Posts` table the bare `except` recovers by loading
`PostsWithDeleted` and keeping the rows without a `DeletionDate`. -/
theorem C8_malformed_line :
    (∀ (α : Type) (getId : α → Int) (lines : List (PLine α)),
      PLine.malformed ∈ lines →
      load_table getId lines = .error "json.decoder.JSONDecodeError") ∧
    (∀ i : Input,
      PLine.malformed ∈ i.usersLines ∨ PLine.malformed ∈ i.commentsLines ∨
        PLine.malformed ∈ i.historyLines →
      ∃ e, pipeline i = .error e) ∧
    (∀ i : Input, PLine.malformed ∈ i.postsLines →
      loadPosts i.postsLines i.pwdLines =
        (match load_table Post.Id i.pwdLines with
         | .error e => .error e
         | .ok m => .ok (m.filter (fun kv => kv.2.DeletionDate.isNone)))) := by
  refine ⟨fun α getId lines h => load_table_malformed getId lines h, ?_, ?_⟩
  · intro i hmem
    cases hp : pipeline i with
    | error e => exact ⟨e, rfl⟩
    | ok out =>
      exfalso
      obtain ⟨st5, h5, _⟩ := pipeline_render i out hp
      obtain ⟨st3, h3, hhp, _, _⟩ := stage5_spec i st5 h5
      obtain ⟨st2, h2, _, _, _, _, _, _, _⟩ := stage3_spec i st3 h3
      have h1ex : ∃ st1, stage1 i = .ok st1 := by
        rw [stage2] at h2
        cases h1 : stage1 i with
        | error e =>
          simp only [h1] at h2
          cases h2
        | ok st1 => exact ⟨st1, rfl⟩
      obtain ⟨st1, h1⟩ := h1ex
      obtain ⟨⟨u, hu⟩, ⟨c, hc⟩⟩ := stage1_loads i st1 h1
      rcases hmem with hm | hm | hm
      · rw [load_table_malformed User.Id _ hm] at hu
        cases hu
      · rw [load_table_malformed Comment.Id _ hm] at hc
        cases hc
      · obtain ⟨e, he⟩ := historyPassAux_malformed i.historyLines st3.arena hm
        rw [he] at hhp
        cases hhp
  · intro i hm
    rw [loadPosts, load_table_malformed Post.Id _ hm]

def cex8Input : Input :=
  { usersLines := [.row wCommunity],
    postsLines := [.malformed],
    pwdLines :=
      [.row { Id := 1, Title := "Hi" },
       .row { Id := 3, Title := "Gone", DeletionDate := some "2016-01-01T00:00:00" }],
    commentsLines := [], historyLines := [] }

def cex8bInput : Input :=
  { usersLines := [.malformed], postsLines := [], pwdLines := [],
    commentsLines := [], historyLines := [] }

def cex8Out : Output := match pipeline cex8Input with | .ok o => o | .error _ => default

/-- C8 (amended) on concrete runs: the invalid Posts line aborts that
table's load; an invalid Users line aborts the run; the Posts loader falls
back to the filtered `PostsWithDeleted`. -/
theorem C8_malformed_line_witness :
    PLine.malformed ∈ cex8Input.postsLines ∧
    load_table Post.Id cex8Input.postsLines =
      .error "json.decoder.JSONDecodeError" ∧
    (∃ e, pipeline cex8bInput = .error e) ∧
    loadPosts cex8Input.postsLines cex8Input.pwdLines =
      (match load_table Post.Id cex8Input.pwdLines with
       | .error e => .error e
       | .ok m => .ok (m.filter (fun kv => kv.2.DeletionDate.isNone))) :=
  ⟨by decide,
   C8_malformed_line.1 Post Post.Id cex8Input.postsLines (by decide),
   C8_malformed_line.2.1 cex8bInput (Or.inl (by decide)),
   C8_malformed_line.2.2 cex8Input (by decide)⟩

/-- C8 counterexample to "no special recovery": with an unparsable `Posts`
file the run still succeeds, rendering the undeleted question recovered
from `PostsWithDeleted` - the core applies a special recovery for this one
table. -/
theorem C8_malformed_line_cex :
    load_table Post.Id cex8Input.postsLines =
      .error "json.decoder.JSONDecodeError" ∧
    pipeline cex8Input = .ok cex8Out ∧
    cex8Out.pages.map (fun p => p.path) = ["questions/1/hi.md"] :=
  ⟨rfl, rfl, rfl⟩

/-- C9 (amended): a rendered answer block's body is the answer's
`BodySource`, except when `BodySource` contains both the substring `][`
and the substring ` [` anywhere, in either order, in which case the
rendered HTML `Body` is emitted. -/
theorem C9_body_choice (st : St) (page : Page) (b : Block)
    (hp : page ∈ (render st).pages) (hb : b ∈ page.blocks) :
    ∃ e : EPost, (∃ p : Post, dictGet st.arena p.Id = some e ∧ b.Id = p.Id) ∧
      b.body = (if containsSub e.BodySource.data [']', '['] &&
          containsSub e.BodySource.data [' ', '['] then e.post.Body
        else e.BodySource) := by
  obtain ⟨qe, _, hpg⟩ := mem_pages hp
  rw [hpg] at hb
  have hb1 : b ∈ (if qe.Answers.isEmpty then []
      else renderAnswerBlocks st.arena qe) := hb
  by_cases he : qe.Answers.isEmpty = true
  · rw [if_pos he] at hb1
    exact absurd hb1 (List.not_mem_nil b)
  · rw [if_neg he] at hb1
    obtain ⟨p, e, hge, hbe⟩ := mem_renderAnswerBlocks hb1
    refine ⟨e, ⟨p, hge, by rw [hbe]⟩, ?_⟩
    rw [hbe]
    rfl

/-- C9 (amended) on the concrete run. -/
theorem C9_body_choice_witness :
    wPage ∈ (render wSt5).pages ∧ wBlock ∈ wPage.blocks ∧
    (∃ e : EPost,
      (∃ p : Post, dictGet wSt5.arena p.Id = some e ∧ wBlock.Id = p.Id) ∧
      wBlock.body = (if containsSub e.BodySource.data [']', '['] &&
          containsSub e.BodySource.data [' ', '['] then e.post.Body
        else e.BodySource)) :=
  ⟨by decide, by decide,
   C9_body_choice wSt5 wPage wBlock (by decide) (by decide)⟩

def cex9Input : Input :=
  { usersLines := [.row wCommunity],
    postsLines :=
      [.row { Id := 1, Title := "Q" },
       .row { Id := 21, PostTypeId := 2, ParentId := 1, Body := "HTMLBODY" }],
    pwdLines := [], commentsLines := [],
    historyLines :=
      [.row { PostId := 21, PostHistoryTypeId := 2, Text := " [a][b" }] }

def cex9St5 : St := match stage5 cex9Input with | .ok st => st | .error _ => default

def cex9Out : Output := match pipeline cex9Input with | .ok o => o | .error _ => default

/-- C9 counterexample to the spec's ordered reading: the body source
` [a][b` has no ` [` occurrence after its `][` (so the claimed condition
"`][` with a following `[` preceded by a space" is false), yet the
renderer emits the HTML `Body`: the code tests the two substrings
independently of their order. -/
theorem C9_body_choice_cex :
    pipeline cex9Input = .ok cex9Out ∧
    stage5 cex9Input = .ok cex9St5 ∧
    (dictGet cex9St5.arena 21).map (fun e => e.BodySource) = some " [a][b" ∧
    followingCond " [a][b".data = false ∧
    cex9Out.pages.map (fun p => p.blocks.map (fun blk => blk.body)) =
      [["HTMLBODY"]] :=
  ⟨rfl, rfl, rfl, rfl, rfl⟩

/-- C10: a qualifying `PostHistory` event naming a post that is not in the
loaded `Posts` mapping raises `KeyError` during history streaming; the
pipeline aborts and produces no output. -/
theorem C10_history_missing_post (i : Input) (st3 : St)
    (h3 : stage3 i = .ok st3)
    (hmiss : ∃ r ∈ revRows i.historyLines, qualifies r = true ∧
      dictGet st3.arena r.PostId = none) :
    ∃ e, pipeline i = .error e := by
  obtain ⟨e, he⟩ := historyPassAux_error i.historyLines st3.arena hmiss
  refine ⟨e, ?_⟩
  simp only [pipeline, stage5, h3, historyPass, he]

def cex10Input : Input :=
  { usersLines := [.row wCommunity],
    postsLines := [.malformed],
    pwdLines :=
      [.row { Id := 1, Title := "Hi" },
       .row { Id := 3, Title := "Gone", DeletionDate := some "2016-01-01T00:00:00" }],
    commentsLines := [],
    historyLines := [.row { PostId := 3, PostHistoryTypeId := 2, Text := "t" }] }

def cex10St3 : St := match stage3 cex10Input with | .ok st => st | .error _ => default

/-- C10 on a concrete run: `Posts` comes from the `DeletionDate`-filtered
fallback, history names the deleted post 3, and the pipeline errors out. -/
theorem C10_history_missing_post_witness :
    stage3 cex10Input = .ok cex10St3 ∧
    (∃ r ∈ revRows cex10Input.historyLines, qualifies r = true ∧
      dictGet cex10St3.arena r.PostId = none) ∧
    (∃ e, pipeline cex10Input = .error e) :=
  ⟨rfl, by decide,
   C10_history_missing_post cex10Input cex10St3 rfl (by decide)⟩

end CS
